import Mathlib

/-!
Verification of the signature-stream / alphabet-growth / fracture-metrics
engine of the Behavioral-Mathematics repository.

The definitions below are a shallow embedding of the two driver scripts
`scripts/sbm_ai_monitor.py` (state-sequence variant) and `scripts/sbm_test.py`
(index-operator variant).  Python integers are modelled as `Nat` (with `Int`
where the source can produce negative intermediate values), fallible code
(`raise ValueError`, `ZeroDivisionError`, `IndexError`, `KeyError`) is
modelled with `Option`, and float arithmetic is modelled with its exact
mathematical semantics (`ℚ` for ratios, `ℝ` for logarithms).
-/

set_option maxRecDepth 10000

namespace SBM

/-- Configuration of the state-sequence variant (`AIMConfig` in
`sbm_ai_monitor.py`).  Mode and observation tags are kept as strings, exactly
as in the source, so that unknown tags can be expressed. -/
structure AIMConfig where
  N : Nat
  H : Nat
  M : Nat
  seed : Nat
  a1 : Nat
  c1 : Nat
  a2 : Nat
  c2 : Nat
  shift_n : Nat
  long_stable_L : Nat
  obs : String
  pre_mode : String
  post_mode : String
deriving DecidableEq, Repr

/-- `parity_bit`: `1 if (x & 1) else 0`. -/
def parity_bit (x : Nat) : Nat :=
  if Nat.land x 1 ≠ 0 then 1 else 0

/-- Binary digit sum of the low `k` bits of `x`. -/
def popcountGo : Nat → Nat → Nat
  | 0, _ => 0
  | k + 1, x => x % 2 + popcountGo k (x / 2)

/-- `popcnt32` (`int.bit_count` of the value masked to 32 bits): the masked
value is below `2^32`, so summing its 32 low bits is its population
count. -/
def popcnt32 (x : Nat) : Nat :=
  popcountGo 32 (Nat.land x 0xFFFFFFFF)

/-- `lcg_step`: `(a*x + c) % M`; Python raises `ZeroDivisionError` when
`M = 0`, modelled by `none`. -/
def lcg_step (x a c M : Nat) : Option Nat :=
  if M = 0 then none else some ((a * x + c) % M)

/-- `stream_step`: one transition of the state stream, dispatching on the
mode tag; an unknown tag raises `ValueError` (modelled by `none`), and the
`ramp` branch `(x + (t+1)) % M` raises on `M = 0`. -/
def stream_step (x t : Nat) (mode : String) (a c M : Nat) : Option Nat :=
  if mode = "lcg" then lcg_step x a c M
  else if mode = "plateau" then some x
  else if mode = "ramp" then (if M = 0 then none else some ((x + (t + 1)) % M))
  else none

/-- The loop body of `build_stream`: starting from state `x` at step `t`,
produce the remaining `steps + 1` states (the current one included).
Step `t` uses the pre regime when `t < shift_n`, the post regime otherwise. -/
def build_from (cfg : AIMConfig) (x t : Nat) : Nat → Option (List Nat)
  | 0 => some [x]
  | steps + 1 =>
    match (if t < cfg.shift_n then stream_step x t cfg.pre_mode cfg.a1 cfg.c1 cfg.M
           else stream_step x t cfg.post_mode cfg.a2 cfg.c2 cfg.M) with
    | none => none
    | some x1 =>
      match build_from cfg x1 (t + 1) steps with
      | none => none
      | some rest => some (x :: rest)

/-- `build_stream`: `N + H + 1` states; `xs[0] = seed % M` (raising on
`M = 0`), each later state produced by `stream_step` under the regime of its
step index. -/
def build_stream (cfg : AIMConfig) : Option (List Nat) :=
  if cfg.M = 0 then none
  else build_from cfg (cfg.seed % cfg.M) 0 (cfg.N + cfg.H)

/-- `obs_bit`: one observation bit from a consecutive state pair, dispatching
on the observation tag; an unknown tag raises `ValueError`.  The
`delta_parity` branch computes `(x1 - x0) % M` with Python's floor modulus,
which for `M > 0` is `Int.emod`. -/
def obs_bit (x0 x1 : Nat) (cfg : AIMConfig) : Option Nat :=
  if cfg.obs = "delta_parity" then
    (if cfg.M = 0 then none
     else some (parity_bit (((x1 : Int) - (x0 : Int)).emod (cfg.M : Int)).toNat))
  else if cfg.obs = "xor_parity" then
    some (parity_bit (Nat.land (Nat.xor x0 x1) 0xFFFFFFFF))
  else if cfg.obs = "x_lsb" then
    some (parity_bit (Nat.land x0 1))
  else if cfg.obs = "popcnt_parity" then
    some (parity_bit (popcnt32 (Nat.land (Nat.xor x0 x1) 0xFFFFFFFF)))
  else none

/-- The loop body of `signature_at`: observation bits for offsets
`k, k+1, …` while `rem` bits remain; list indexing out of range raises
`IndexError` (modelled by `none`). -/
def sigFrom (xs : List Nat) (cfg : AIMConfig) (n k : Nat) : Nat → Option (List Nat)
  | 0 => some []
  | rem + 1 =>
    match xs[n + k]?, xs[n + k + 1]? with
    | some x0, some x1 =>
      match obs_bit x0 x1 cfg, sigFrom xs cfg n (k + 1) rem with
      | some b, some rest => some (b :: rest)
      | _, _ => none
    | _, _ => none

/-- `signature_at`: the `H` observation bits of the window starting at
index `n`. -/
def signature_at (n : Nat) (xs : List Nat) (cfg : AIMConfig) : Option (List Nat) :=
  sigFrom xs cfg n 0 cfg.H

/-- One emitted record of the alphabet sweep: the result-stream row
`(n, signature, new_flag, first_seen)` together with the alpha-series value
`len(alphabet)` recorded immediately after processing `n`. -/
structure Row (σ : Type) where
  n : Nat
  sig : σ
  new_flag : Nat
  first_seen : Nat
  alpha : Nat
deriving DecidableEq, Repr

/-- Lookup in the alphabet, modelled as an insertion-ordered association
list (Python `dict` with unique keys). -/
def lookupFirst {σ : Type} [DecidableEq σ] : List (σ × Nat) → σ → Option Nat
  | [], _ => none
  | (k, v) :: rest, s => if k = s then some v else lookupFirst rest s

/-- The alphabet sweep of both drivers (`run` in `sbm_ai_monitor.py` and in
`sbm_test.py`): for each index in order, compute the signature, insert it
into the alphabet if absent (with value the current index), and emit the
row. -/
def sweepFrom {σ : Type} [DecidableEq σ] (sigf : Nat → σ)
    (ab : List (σ × Nat)) : List Nat → List (Row σ)
  | [] => []
  | n :: rest =>
    let s := sigf n
    match lookupFirst ab s with
    | some f => ⟨n, s, 0, f, ab.length⟩ :: sweepFrom sigf ab rest
    | none => ⟨n, s, 1, n, ab.length + 1⟩ :: sweepFrom sigf (ab ++ [(s, n)]) rest

/-- The alphabet sweep. -/
def sweep {σ : Type} [DecidableEq σ] (sigf : Nat → σ) (idxs : List Nat) : List (Row σ) :=
  sweepFrom sigf [] idxs

/-- The alphabet sweep with a fallible signature function (the state-sequence
variant, where `signature_at` can raise): the first failure aborts the whole
run with no records. -/
def sweepFromM {σ : Type} [DecidableEq σ] (sigf : Nat → Option σ)
    (ab : List (σ × Nat)) : List Nat → Option (List (Row σ))
  | [] => some []
  | n :: rest =>
    match sigf n with
    | none => none
    | some s =>
      match lookupFirst ab s with
      | some f =>
        match sweepFromM sigf ab rest with
        | none => none
        | some rs => some (⟨n, s, 0, f, ab.length⟩ :: rs)
      | none =>
        match sweepFromM sigf (ab ++ [(s, n)]) rest with
        | none => none
        | some rs => some (⟨n, s, 1, n, ab.length + 1⟩ :: rs)

/-- The core pipeline of `run` in `sbm_ai_monitor.py`: build the state
stream, then sweep indices `0 … N-1` extracting one signature each. -/
def sbm_ai_run (cfg : AIMConfig) : Option (List (Row (List Nat))) :=
  match build_stream cfg with
  | none => none
  | some xs => sweepFromM (fun n => signature_at n xs cfg) [] (List.range cfg.N)

/-- The alpha series `(n, alpha(n), new_flag)` emitted alongside the result
stream. -/
def alphaSeriesOf {σ : Type} (rows : List (Row σ)) : List (Nat × Nat × Nat) :=
  rows.map (fun r => (r.n, r.alpha, r.new_flag))

/-- `alpha_series[-1][1] if alpha_series else 0`. -/
def alpha_last (s : List (Nat × Nat × Nat)) : Nat :=
  match s.getLast? with
  | some t => t.2.1
  | none => 0

/-- `[n for (n, _a, newf) in alpha_series if newf == 1]`. -/
def emergence_indices (s : List (Nat × Nat × Nat)) : List Nat :=
  s.filterMap (fun t => if t.2.2 = 1 then some t.1 else none)

/-- Consecutive differences of the emergence indices (built only when at
least two emergences exist; otherwise the list is empty). -/
def gapsOf (e : List Nat) : List Int :=
  if 2 ≤ e.length then
    List.zipWith (fun (a b : Nat) => (b : Int) - (a : Int)) e e.tail
  else []

/-- `mean_gap`: `0.0` for no gaps, else the arithmetic mean (float division
modelled exactly over `ℚ`). -/
def mean_gap (g : List Int) : ℚ :=
  if g.length = 0 then 0 else (g.sum : ℚ) / (g.length : ℚ)

/-- `var_gap`: population variance of the gaps, `0.0` for zero or one gap. -/
def var_gap (g : List Int) : ℚ :=
  if g.length = 0 then 0
  else if g.length = 1 then 0
  else (g.map (fun x => ((x : ℚ) - mean_gap g) ^ 2)).sum / (g.length : ℚ)

/-- `E_N = emergence_count / N if N > 0 else 0.0`. -/
def E_N (N : Nat) (s : List (Nat × Nat × Nat)) : ℚ :=
  if 0 < N then ((emergence_indices s).length : ℚ) / (N : ℚ) else 0

/-- `Hs_N = log(alpha_N + 1.0)` (float `log` modelled as `Real.log`). -/
noncomputable def Hs_N (s : List (Nat × Nat × Nat)) : ℝ :=
  Real.log ((alpha_last s : ℝ) + 1)

/-- `C_N = Hs_N / log(N) if N > 1 else 0.0`. -/
noncomputable def C_N (N : Nat) (s : List (Nat × Nat × Nat)) : ℝ :=
  if 1 < N then Hs_N s / Real.log (N : ℝ) else 0

/-- Last series value whose index equals `target` (the repeated
`if n == …: … = a` pattern of the regime-marker loop); `0` when no index
matches. -/
def last_alpha_at (s : List (Nat × Nat × Nat)) (target : Int) : Nat :=
  s.foldl (fun acc t => if (t.1 : Int) = target then t.2.1 else acc) 0

/-- The loop body of the first-difference computation: `a - prev` with the
running previous value threaded through. -/
def dAlphaGo (prev : Int) : List (Nat × Nat × Nat) → List Int
  | [] => []
  | t :: rest => ((t.2.1 : Int) - prev) :: dAlphaGo (t.2.1 : Int) rest

/-- `d_alpha`: first differences of the alpha values, the value before the
first index taken as `0`. -/
def dAlpha (s : List (Nat × Nat × Nat)) : List Int :=
  dAlphaGo 0 s

/-- The running state of the stability/fracture scan. -/
structure ScanState where
  max_spike : Int
  spike_at_n : Nat
  stable_run : Nat
  max_stable_run : Nat
  fracture_candidate : Nat
  fracture_at_n : Nat
deriving DecidableEq, Repr

/-- The all-zero scan state the fracture loop starts from. -/
def scanInit : ScanState := ⟨0, 0, 0, 0, 0, 0⟩

/-- The `da > max_spike` update of the fracture loop. -/
def spikeUpd (st : ScanState) (n : Nat) (da : Int) : ScanState :=
  if st.max_spike < da then { st with max_spike := da, spike_at_n := n } else st

/-- The `stable_run >= L and da >= 1` update of the fracture loop. -/
def fracUpd (L : Nat) (st : ScanState) (n : Nat) (da : Int) : ScanState :=
  if L ≤ st.stable_run ∧ 1 ≤ da then
    { st with fracture_candidate := st.fracture_candidate + 1,
              fracture_at_n := if st.fracture_at_n = 0 then n else st.fracture_at_n }
  else st

/-- One iteration of the fracture loop of `compute_fracture_metrics` at
index `n` with difference `da`: on a zero difference extend the stable run,
otherwise apply the spike and fracture updates in order and reset the
stable run. -/
def scanStep (L : Nat) (st : ScanState) (n : Nat) (da : Int) : ScanState :=
  if da = 0 then
    { st with stable_run := st.stable_run + 1,
              max_stable_run := max st.max_stable_run (st.stable_run + 1) }
  else
    { fracUpd L (spikeUpd st n da) n da with stable_run := 0 }

/-- The fracture loop: fold `scanStep` over the differences, enumerating
indices from `n`. -/
def scanGo (L : Nat) (st : ScanState) (n : Nat) : List Int → ScanState
  | [] => st
  | da :: rest => scanGo L (scanStep L st n da) (n + 1) rest

/-- The whole stability/fracture scan over a difference list. -/
def fractureScan (L : Nat) (ds : List Int) : ScanState :=
  scanGo L scanInit 0 ds

/-- The metrics record of `compute_fracture_metrics` (the computed fields;
the config-echo fields are omitted since they are copies of the input). -/
structure AIMetrics where
  alpha_N : Nat
  E_N : ℚ
  Hs_N : ℝ
  C_N : ℝ
  emergence_count : Nat
  last_emergence_n : Nat
  mean_gap : ℚ
  var_gap : ℚ
  alpha_before_shift : Nat
  alpha_at_shift : Nat
  alpha_after : Nat
  max_stable_run : Nat
  max_spike : Int
  spike_at_n : Nat
  fracture_candidate_count : Nat
  fracture_first_at_n : Nat

/-- `compute_fracture_metrics` of `sbm_ai_monitor.py` (the computed
fields). -/
noncomputable def compute_fracture_metrics (cfg : AIMConfig)
    (s : List (Nat × Nat × Nat)) : AIMetrics :=
  let e := emergence_indices s
  let g := gapsOf e
  let st := fractureScan cfg.long_stable_L (dAlpha s)
  { alpha_N := alpha_last s
    E_N := E_N cfg.N s
    Hs_N := Hs_N s
    C_N := C_N cfg.N s
    emergence_count := e.length
    last_emergence_n := match e.getLast? with | some n => n | none => 0
    mean_gap := mean_gap g
    var_gap := var_gap g
    alpha_before_shift :=
      if (cfg.shift_n : Int) - 1 < 0 then 0
      else last_alpha_at s ((cfg.shift_n : Int) - 1)
    alpha_at_shift := last_alpha_at s (cfg.shift_n : Int)
    alpha_after := last_alpha_at s ((cfg.N : Int) - 1)
    max_stable_run := st.max_stable_run
    max_spike := st.max_spike
    spike_at_n := st.spike_at_n
    fracture_candidate_count := st.fracture_candidate
    fracture_first_at_n := st.fracture_at_n }

/-- The raw checkpoint candidate list of `run` in `sbm_ai_monitor.py`. -/
def checkpointBase (cfg : AIMConfig) : List Int :=
  [100, 200, 500, 1000, 2000, 5000, 10000, 20000, 50000, 100000,
   (cfg.shift_n : Int) - 1, (cfg.shift_n : Int), (cfg.N : Int) - 1]

/-- `sorted(set(c for c in checkpoints if 0 <= c <= N - 1))`. -/
def checkpointsOf (cfg : AIMConfig) : List Int :=
  ((checkpointBase cfg).filter
    (fun c => decide (0 ≤ c ∧ c ≤ (cfg.N : Int) - 1))).dedup.insertionSort (· ≤ ·)

/-- `idx_map[n]` built from the alpha series (a Python dict comprehension:
the last entry for a given index wins; a missing key raises `KeyError`,
modelled by `none`). -/
def idx_map (s : List (Nat × Nat × Nat)) (c : Int) : Option Nat :=
  s.foldl (fun acc t => if (t.1 : Int) = c then some t.2.1 else acc) none

/-- The checkpoint record stream `(c, alpha(c))` of `run`. -/
def checkpointRows (cfg : AIMConfig) (s : List (Nat × Nat × Nat)) :
    List (Int × Option Nat) :=
  (checkpointsOf cfg).map (fun c => (c, idx_map s c))

/-- The checkpoint values produced by the full pipeline. -/
def ai_checkpoints (cfg : AIMConfig) : Option (List (Int × Option Nat)) :=
  match sbm_ai_run cfg with
  | none => none
  | some rows => some (checkpointRows cfg (alphaSeriesOf rows))

/-- The metrics record produced by the full pipeline. -/
noncomputable def ai_metrics (cfg : AIMConfig) : Option AIMetrics :=
  match sbm_ai_run cfg with
  | none => none
  | some rows => some (compute_fracture_metrics cfg (alphaSeriesOf rows))

/-! Definitions of the index-operator variant (`sbm_test.py`). -/

/-- Configuration of the index-operator variant (`SBMConfig` in
`sbm_test.py`). -/
structure SBMConfig where
  op : String
  H : Nat
  N : Nat
  bands : Nat × Nat × Nat × Nat
deriving DecidableEq, Repr

/-- A signature of the index-operator variant: either a tuple of small
integers or the `(band, bucket)` pair of the banded operator. -/
inductive Sig where
  | bits : List Nat → Sig
  | band : String → Nat → Sig
deriving DecidableEq, Repr

/-- `d_min` of `sbm_test.py`: for `n ≤ 3` return `0` for `n ∈ {2, 3}` and
`2` otherwise; for larger `n`, trial division over `range(2, isqrt(n) + 1)`
returning the first divisor found, else `0`. -/
def d_min (n : Nat) : Nat :=
  if n ≤ 3 then (if n = 2 ∨ n = 3 then 0 else 2)
  else
    match (List.range' 2 (Nat.sqrt n - 1)).find? (fun d => n % d = 0) with
    | some d => d
    | none => 0

/-- `band_from_dmin`: map a minimal divisor to one of the bands
`P, A, B, C, D, E` using the four thresholds. -/
def band_from_dmin (d : Nat) (thresholds : Nat × Nat × Nat × Nat) : String :=
  if d = 0 then "P"
  else if d ≤ thresholds.1 then "A"
  else if d ≤ thresholds.2.1 then "B"
  else if d ≤ thresholds.2.2.1 then "C"
  else if d ≤ thresholds.2.2.2 then "D"
  else "E"

/-- `op_ssnt_signature`.  The hardness bucket `bucket01(d / sqrt(n), H)` is
genuinely floating-point; it is abstracted as the function parameter
`bucket`, applied exactly where the source computes the bucket. -/
def op_ssnt_signature (bucket : Nat → Nat) (cfg : SBMConfig) (n : Nat) : Sig :=
  let d := d_min n
  let b := band_from_dmin d cfg.bands
  if d = 0 then Sig.band b 0 else Sig.band b (bucket n)

/-- The loop body of `op_collatz_parity_signature`: record the parity of the
current value, then apply the Collatz step. -/
def collatzBits (x : Nat) : Nat → List Nat
  | 0 => []
  | h + 1 =>
    (if Nat.land x 1 ≠ 0 then 1 else 0) ::
      collatzBits (if Nat.land x 1 ≠ 0 then 3 * x + 1 else x / 2) h

/-- `op_collatz_parity_signature`. -/
def op_collatz_parity_signature (cfg : SBMConfig) (n : Nat) : Sig :=
  Sig.bits (collatzBits n cfg.H)

/-- One 13/17/5 xorshift mix step, each shift masked to 32 bits. -/
def xorshift32 (x : Nat) : Nat :=
  let x1 := Nat.xor x (Nat.land (x <<< 13) 0xFFFFFFFF)
  let x2 := Nat.xor x1 (Nat.land (x1 >>> 17) 0xFFFFFFFF)
  let x3 := Nat.xor x2 (Nat.land (x2 <<< 5) 0xFFFFFFFF)
  Nat.land x3 0xFFFFFFFF

/-- The loop body of `op_xorshift_parity_signature`. -/
def xorshiftBits (x : Nat) : Nat → List Nat
  | 0 => []
  | h + 1 => (if Nat.land x 1 ≠ 0 then 1 else 0) :: xorshiftBits (xorshift32 x) h

/-- `op_xorshift_parity_signature` (initial value truncated to 32 bits). -/
def op_xorshift_parity_signature (cfg : SBMConfig) (n : Nat) : Sig :=
  Sig.bits (xorshiftBits (Nat.land n 0xFFFFFFFF) cfg.H)

/-- The `while x:` loop of `sdig` with an explicit iteration bound; since
`x / 10 < x` for `x ≠ 0`, a bound of `x` iterations is never exhausted. -/
def sdigGo : Nat → Nat → Nat
  | 0, _ => 0
  | fuel + 1, x => if x = 0 then 0 else x % 10 + sdigGo fuel (x / 10)

/-- `sdig`: sum of decimal digits. -/
def sdig (x : Nat) : Nat := sdigGo x x

/-- The loop body of `op_digitsum_mod9_signature`: record `x mod 9`, then
replace `x` by its decimal digit sum. -/
def digitsumBits (x : Nat) : Nat → List Nat
  | 0 => []
  | h + 1 => (x % 9) :: digitsumBits (sdig x) h

/-- `op_digitsum_mod9_signature`. -/
def op_digitsum_mod9_signature (cfg : SBMConfig) (n : Nat) : Sig :=
  Sig.bits (digitsumBits n cfg.H)

/-- The loop body of `op_sha1_parity_signature`: record the parity of `x`,
then replace `x` by the first 32 bits of its SHA-1 digest.  The
cryptographic hash is abstracted as the function parameter `sha1_32`. -/
def sha1Bits (sha1_32 : Nat → Nat) (x : Nat) : Nat → List Nat
  | 0 => []
  | h + 1 => (if Nat.land x 1 ≠ 0 then 1 else 0) :: sha1Bits sha1_32 (sha1_32 x) h

/-- `op_sha1_parity_signature` (initial value truncated to 32 bits). -/
def op_sha1_parity_signature (sha1_32 : Nat → Nat) (cfg : SBMConfig) (n : Nat) : Sig :=
  Sig.bits (sha1Bits sha1_32 (Nat.land n 0xFFFFFFFF) cfg.H)

/-- `get_signature_fn`: dispatch on the operator name; an unknown name
raises `ValueError` (modelled by `none`).  `sha1_32` and `bucket` are the
abstracted primitives of the hash and hardness-bucket operators. -/
def get_signature_fn (op : String) (sha1_32 bucket : Nat → Nat) :
    Option (SBMConfig → Nat → Sig) :=
  if op = "ssnt_closure" then some (op_ssnt_signature bucket)
  else if op = "collatz_parity" then some op_collatz_parity_signature
  else if op = "xorshift_parity" then some op_xorshift_parity_signature
  else if op = "digitsum_mod9" then some op_digitsum_mod9_signature
  else if op = "sha1_parity" then some (op_sha1_parity_signature sha1_32)
  else none

/-- The core pipeline of `run` in `sbm_test.py`: dispatch the operator
(aborting the run before any record on an unknown name), then sweep the
indices `2 … N` in ascending order. -/
def sbm_run (sha1_32 bucket : Nat → Nat) (cfg : SBMConfig) :
    Option (List (Row Sig)) :=
  match get_signature_fn cfg.op sha1_32 bucket with
  | none => none
  | some sig_fn => some (sweep (sig_fn cfg) (List.range' 2 (cfg.N - 1)))

/-- The metrics record of `compute_metrics` in `sbm_test.py` (the computed
fields; the config-echo fields are omitted since they are copies of the
input). -/
structure SBMMetrics where
  alpha_N : Nat
  E_N : ℚ
  Hs_N : ℝ
  C_N : ℝ
  emergence_count : Nat
  last_emergence_n : Nat
  mean_gap : ℚ
  var_gap : ℚ

/-- `compute_metrics` of `sbm_test.py` (textually the same formulas as the
corresponding part of `compute_fracture_metrics`). -/
noncomputable def compute_metrics (cfg : SBMConfig)
    (s : List (Nat × Nat × Nat)) : SBMMetrics :=
  let e := emergence_indices s
  let g := gapsOf e
  { alpha_N := alpha_last s
    E_N := E_N cfg.N s
    Hs_N := Hs_N s
    C_N := C_N cfg.N s
    emergence_count := e.length
    last_emergence_n := match e.getLast? with | some n => n | none => 0
    mean_gap := mean_gap g
    var_gap := var_gap g }

/-- The first index of the list whose signature equals `s`. -/
def firstIdxWith {σ : Type} [DecidableEq σ] (sigf : Nat → σ) (s : σ) :
    List Nat → Option Nat
  | [] => none
  | i :: rest => if sigf i = s then some i else firstIdxWith sigf s rest

end SBM

section ScenarioChecks

open SBM

-- Scenario A configuration with the post regime never invoked
-- (shift_n = 6 = N + H).
example :
    build_stream ⟨5, 1, 8, 0, 0, 0, 0, 0, 6, 1, "delta_parity", "ramp", "lcg"⟩ =
      some [0, 1, 3, 6, 2, 7, 5] := by decide

example :
    sbm_ai_run ⟨5, 1, 8, 0, 0, 0, 0, 0, 6, 1, "delta_parity", "ramp", "lcg"⟩ =
      some [⟨0, [1], 1, 0, 1⟩, ⟨1, [0], 1, 1, 2⟩, ⟨2, [1], 0, 0, 2⟩,
            ⟨3, [0], 0, 1, 2⟩, ⟨4, [1], 0, 0, 2⟩] := by decide

-- With shift_n = 5 = N the post regime computes the final state.
example :
    build_stream ⟨5, 1, 8, 0, 0, 0, 0, 0, 5, 1, "delta_parity", "ramp", "lcg"⟩ =
      some [0, 1, 3, 6, 2, 7, 0] := by decide

-- Scenario B: digitsum_mod9, N = 4, H = 2.
example :
    sbm_run (fun _ => 0) (fun _ => 0) ⟨"digitsum_mod9", 2, 4, (3, 11, 31, 101)⟩ =
      some [⟨2, Sig.bits [2, 2], 1, 2, 1⟩, ⟨3, Sig.bits [3, 3], 1, 3, 2⟩,
            ⟨4, Sig.bits [4, 4], 1, 4, 3⟩] := by decide

-- d_min spot checks: the code returns 2 (not 0) at n ∈ {0, 1}.
example : d_min 0 = 2 ∧ d_min 1 = 2 ∧ d_min 2 = 0 ∧ d_min 3 = 0 := by decide

example : d_min 9 = 3 := by
  have h : Nat.sqrt 9 = 3 := (Nat.eq_sqrt.mpr (by norm_num)).symm
  simp only [d_min]
  rw [h]
  decide

-- Scenario C shape: diffs [1, 0, 1] with L = 1.
example :
    fractureScan 1 [1, 0, 1] = ⟨1, 0, 0, 1, 1, 2⟩ := by decide

end ScenarioChecks

namespace SBM

/-! Lemmas about the alphabet sweep. -/

variable {σ : Type} [DecidableEq σ]

theorem lookupFirst_append_some {ab : List (σ × Nat)} {s : σ} {f : Nat}
    (kv : σ × Nat) (h : lookupFirst ab s = some f) :
    lookupFirst (ab ++ [kv]) s = some f := by
  induction ab with
  | nil => simp [lookupFirst] at h
  | cons hd tl ih =>
    obtain ⟨k, v⟩ := hd
    by_cases hk : k = s
    · simpa [lookupFirst, hk] using h
    · simp only [lookupFirst, hk, if_false, List.cons_append] at h ⊢
      exact ih h

theorem lookupFirst_append_none {ab : List (σ × Nat)} {s : σ}
    (k : σ) (v : Nat) (h : lookupFirst ab s = none) :
    lookupFirst (ab ++ [(k, v)]) s = if k = s then some v else none := by
  induction ab with
  | nil => simp [lookupFirst]
  | cons hd tl ih =>
    obtain ⟨k', v'⟩ := hd
    by_cases hk : k' = s
    · simp [lookupFirst, hk] at h
    · simp only [lookupFirst, hk, if_false, List.cons_append] at h ⊢
      exact ih h

theorem firstIdxWith_eq_head_filter (sigf : Nat → σ) (s : σ) (idxs : List Nat) :
    firstIdxWith sigf s idxs =
      (idxs.filter (fun i => decide (sigf i = s))).head? := by
  induction idxs with
  | nil => rfl
  | cons n rest ih =>
    by_cases h : sigf n = s
    · simp [firstIdxWith, List.filter, h]
    · simp [firstIdxWith, List.filter, h, ih]

theorem sweepFrom_length (sigf : Nat → σ) :
    ∀ (idxs : List Nat) (ab : List (σ × Nat)),
      (sweepFrom sigf ab idxs).length = idxs.length := by
  intro idxs
  induction idxs with
  | nil => intro ab; rfl
  | cons n rest ih =>
    intro ab
    cases h : lookupFirst ab (sigf n) with
    | none => simp [sweepFrom, h, ih]
    | some f => simp [sweepFrom, h, ih]

theorem sweepFrom_map_n (sigf : Nat → σ) :
    ∀ (idxs : List Nat) (ab : List (σ × Nat)),
      (sweepFrom sigf ab idxs).map Row.n = idxs := by
  intro idxs
  induction idxs with
  | nil => intro ab; rfl
  | cons n rest ih =>
    intro ab
    cases h : lookupFirst ab (sigf n) with
    | none => simp [sweepFrom, h, ih]
    | some f => simp [sweepFrom, h, ih]

/-- The combined row invariant of the sweep: every emitted row carries the
signature of its index, its index is one of the processed indices, and its
`first_seen` field is the alphabet entry for its signature at the time the
sweep started, or — when the signature was not yet in the alphabet — the
first processed index bearing that signature. -/
theorem sweepFrom_rows (sigf : Nat → σ) :
    ∀ (idxs : List Nat) (ab : List (σ × Nat)) (r : Row σ),
      r ∈ sweepFrom sigf ab idxs →
        r.sig = sigf r.n ∧ r.n ∈ idxs ∧
        (∀ f, lookupFirst ab r.sig = some f → r.first_seen = f) ∧
        (lookupFirst ab r.sig = none →
          firstIdxWith sigf r.sig idxs = some r.first_seen) := by
  intro idxs
  induction idxs with
  | nil => intro ab r hr; simp [sweepFrom] at hr
  | cons n rest ih =>
    intro ab r hr
    cases h : lookupFirst ab (sigf n) with
    | some f =>
      rw [sweepFrom, h] at hr
      rcases List.mem_cons.mp hr with hr | hr
      · subst hr
        refine ⟨rfl, List.mem_cons_self _ _, ?_, ?_⟩
        · intro f' hf'
          rw [h] at hf'
          exact Option.some_inj.mp hf'
        · intro hnone
          rw [h] at hnone
          exact absurd hnone (by simp)
      · obtain ⟨hsig, hmem, hsome, hnone⟩ := ih ab r hr
        refine ⟨hsig, List.mem_cons_of_mem _ hmem, hsome, ?_⟩
        intro hn
        have hne : sigf n ≠ r.sig := by
          intro he
          rw [← he, h] at hn
          exact absurd hn (by simp)
        rw [firstIdxWith, if_neg hne]
        exact hnone hn
    | none =>
      rw [sweepFrom, h] at hr
      rcases List.mem_cons.mp hr with hr | hr
      · subst hr
        refine ⟨rfl, List.mem_cons_self _ _, ?_, ?_⟩
        · intro f' hf'
          rw [h] at hf'
          exact absurd hf' (by simp)
        · intro _
          simp [firstIdxWith]
      · obtain ⟨hsig, hmem, hsome, hnone⟩ := ih (ab ++ [(sigf n, n)]) r hr
        refine ⟨hsig, List.mem_cons_of_mem _ hmem, ?_, ?_⟩
        · intro f' hf'
          exact hsome f' (lookupFirst_append_some _ hf')
        · intro hn
          by_cases he : sigf n = r.sig
          · have : lookupFirst (ab ++ [(sigf n, n)]) r.sig = some n := by
              rw [lookupFirst_append_none _ _ hn, if_pos he]
            rw [firstIdxWith, if_pos he, hsome n this]
          · have : lookupFirst (ab ++ [(sigf n, n)]) r.sig = none := by
              rw [lookupFirst_append_none _ _ hn, if_neg he]
            rw [firstIdxWith, if_neg he]
            exact hnone this

theorem firstIdxWith_le (sigf : Nat → σ) :
    ∀ (idxs : List Nat) (s : σ) (i n : Nat),
      idxs.Pairwise (· ≤ ·) → firstIdxWith sigf s idxs = some i →
      n ∈ idxs → sigf n = s → i ≤ n := by
  intro idxs
  induction idxs with
  | nil => intro s i n _ h; simp [firstIdxWith] at h
  | cons j rest ih =>
    intro s i n hp h hn hs
    rw [List.pairwise_cons] at hp
    by_cases hj : sigf j = s
    · rw [firstIdxWith, if_pos hj] at h
      obtain rfl : j = i := Option.some_inj.mp h
      rcases List.mem_cons.mp hn with rfl | hn
      · exact le_refl _
      · exact hp.1 n hn
    · rw [firstIdxWith, if_neg hj] at h
      rcases List.mem_cons.mp hn with rfl | hn
      · exact absurd hs hj
      · exact ih s i n hp.2 h hn hs

/-- Alpha values along the sweep grow by `0` or `1` per row, starting from
the size of the initial alphabet. -/
theorem sweepFrom_alpha_chain (sigf : Nat → σ) :
    ∀ (idxs : List Nat) (ab : List (σ × Nat)),
      List.Chain' (fun a b => a ≤ b ∧ b ≤ a + 1)
        ((sweepFrom sigf ab idxs).map Row.alpha) ∧
      ∀ a ∈ ((sweepFrom sigf ab idxs).map Row.alpha).head?,
        ab.length ≤ a ∧ a ≤ ab.length + 1 := by
  intro idxs
  induction idxs with
  | nil => intro ab; simp [sweepFrom]
  | cons n rest ih =>
    intro ab
    cases h : lookupFirst ab (sigf n) with
    | some f =>
      have hih := ih ab
      rw [sweepFrom, h]
      simp only [List.map_cons]
      constructor
      · rw [List.chain'_cons']
        refine ⟨?_, hih.1⟩
        intro b hb
        have := hih.2 b hb
        exact ⟨this.1, this.2⟩
      · intro a ha
        simp only [List.head?_cons, Option.mem_def, Option.some_inj] at ha
        omega
    | none =>
      have hih := ih (ab ++ [(sigf n, n)])
      rw [sweepFrom, h]
      simp only [List.map_cons]
      constructor
      · rw [List.chain'_cons']
        refine ⟨?_, hih.1⟩
        intro b hb
        have := hih.2 b hb
        simp only [List.length_append, List.length_cons, List.length_nil] at this
        omega
      · intro a ha
        simp only [List.head?_cons, Option.mem_def, Option.some_inj] at ha
        omega

/-- Every first difference of the alpha series of a sweep, relative to the
size of the initial alphabet, is `0` or `1`. -/
theorem sweepFrom_dAlpha_bounds (sigf : Nat → σ) :
    ∀ (idxs : List Nat) (ab : List (σ × Nat)) (d : Int),
      d ∈ dAlphaGo (ab.length : Int) (alphaSeriesOf (sweepFrom sigf ab idxs)) →
        0 ≤ d ∧ d ≤ 1 := by
  intro idxs
  induction idxs with
  | nil => intro ab d hd; simp [sweepFrom, alphaSeriesOf, dAlphaGo] at hd
  | cons n rest ih =>
    intro ab d hd
    cases h : lookupFirst ab (sigf n) with
    | some f =>
      rw [sweepFrom, h] at hd
      simp only [alphaSeriesOf, List.map_cons, dAlphaGo, List.mem_cons] at hd
      rcases hd with rfl | hd
      · omega
      · exact ih ab d hd
    | none =>
      rw [sweepFrom, h] at hd
      simp only [alphaSeriesOf, List.map_cons, dAlphaGo, List.mem_cons] at hd
      rcases hd with rfl | hd
      · omega
      · have := ih (ab ++ [(sigf n, n)]) d
        simp only [alphaSeriesOf, List.length_append, List.length_cons,
          List.length_nil] at this hd
        exact this (by exact_mod_cast hd)

theorem sweepFromM_eq_sweepFrom [Inhabited σ] (sigf : Nat → Option σ) :
    ∀ (idxs : List Nat) (ab : List (σ × Nat)) (rows : List (Row σ)),
      sweepFromM sigf ab idxs = some rows →
        rows = sweepFrom (fun n => (sigf n).getD default) ab idxs := by
  intro idxs
  induction idxs with
  | nil =>
    intro ab rows h
    simp only [sweepFromM] at h
    simp [sweepFrom, ← Option.some_inj.mp h]
  | cons n rest ih =>
    intro ab rows h
    rw [sweepFromM] at h
    cases hs : sigf n with
    | none => rw [hs] at h; exact absurd h (by simp)
    | some s =>
      simp only [hs] at h
      have hd : (sigf n).getD default = s := by rw [hs]; rfl
      cases hl : lookupFirst ab s with
      | some f =>
        simp only [hl] at h
        cases hm : sweepFromM sigf ab rest with
        | none => rw [hm] at h; exact absurd h (by simp)
        | some rs =>
          simp only [hm] at h
          rw [sweepFrom]
          simp only [hd, hl]
          rw [← Option.some_inj.mp h, ih ab rs hm]
      | none =>
        simp only [hl] at h
        cases hm : sweepFromM sigf (ab ++ [(s, n)]) rest with
        | none => rw [hm] at h; exact absurd h (by simp)
        | some rs =>
          simp only [hm] at h
          rw [sweepFrom]
          simp only [hd, hl]
          rw [← Option.some_inj.mp h, ih (ab ++ [(s, n)]) rs hm]

/-! Lemmas about the stability/fracture scan. -/

theorem scanGo_append (L : Nat) :
    ∀ (xs ys : List Int) (st : ScanState) (i : Nat),
      scanGo L st i (xs ++ ys) = scanGo L (scanGo L st i xs) (i + xs.length) ys := by
  intro xs
  induction xs with
  | nil => intro ys st i; simp [scanGo]
  | cons x rest ih =>
    intro ys st i
    rw [List.cons_append, scanGo, scanGo, ih]
    congr 1
    simp only [List.length_cons]
    omega

theorem spikeUpd_fields (st : ScanState) (n : Nat) (da : Int) :
    (spikeUpd st n da).stable_run = st.stable_run ∧
    (spikeUpd st n da).max_stable_run = st.max_stable_run ∧
    (spikeUpd st n da).fracture_candidate = st.fracture_candidate ∧
    (spikeUpd st n da).fracture_at_n = st.fracture_at_n := by
  rw [spikeUpd]
  split <;> exact ⟨rfl, rfl, rfl, rfl⟩

theorem fracUpd_fields (L : Nat) (st : ScanState) (n : Nat) (da : Int) :
    (fracUpd L st n da).max_spike = st.max_spike ∧
    (fracUpd L st n da).spike_at_n = st.spike_at_n ∧
    (fracUpd L st n da).stable_run = st.stable_run ∧
    (fracUpd L st n da).max_stable_run = st.max_stable_run := by
  rw [fracUpd]
  split <;> exact ⟨rfl, rfl, rfl, rfl⟩

theorem scanStep_zero (L : Nat) (st : ScanState) (i : Nat) :
    scanStep L st i 0 =
      { st with stable_run := st.stable_run + 1,
                max_stable_run := max st.max_stable_run (st.stable_run + 1) } := by
  rw [scanStep]
  simp

theorem scanGo_zeros (L : Nat) :
    ∀ (k : Nat) (st : ScanState) (i : Nat),
      scanGo L st i (List.replicate k 0) =
        { st with
          stable_run := st.stable_run + k,
          max_stable_run :=
            if k = 0 then st.max_stable_run
            else max st.max_stable_run (st.stable_run + k) } := by
  intro k
  induction k with
  | zero => intro st i; simp [scanGo]
  | succ k ih =>
    intro st i
    rw [List.replicate_succ, scanGo, scanStep_zero L st i, ih]
    by_cases hk : k = 0
    · subst hk; simp
    · rw [if_neg hk, if_neg (Nat.succ_ne_zero k)]
      simp only [ScanState.mk.injEq, true_and, and_true]
      exact ⟨by omega, by omega⟩

theorem scanStep_candidate_mono (L : Nat) (st : ScanState) (n : Nat) (da : Int) :
    st.fracture_candidate ≤ (scanStep L st n da).fracture_candidate := by
  rw [scanStep]
  split
  · exact le_refl _
  · show st.fracture_candidate ≤ (fracUpd L (spikeUpd st n da) n da).fracture_candidate
    have h1 := (spikeUpd_fields st n da).2.2.1
    rw [fracUpd]
    split
    · dsimp only
      omega
    · omega

theorem scanGo_candidate_mono (L : Nat) :
    ∀ (ds : List Int) (st : ScanState) (i : Nat),
      st.fracture_candidate ≤ (scanGo L st i ds).fracture_candidate := by
  intro ds
  induction ds with
  | nil => intro st i; exact le_refl _
  | cons da rest ih =>
    intro st i
    rw [scanGo]
    exact le_trans (scanStep_candidate_mono L st i da) (ih _ _)

theorem scanStep_at_n_of_candidate_eq (L : Nat) (st : ScanState) (n : Nat) (da : Int)
    (h : (scanStep L st n da).fracture_candidate = st.fracture_candidate) :
    (scanStep L st n da).fracture_at_n = st.fracture_at_n := by
  have hsp := spikeUpd_fields st n da
  by_cases h0 : da = 0
  · rw [scanStep, if_pos h0]
  · rw [scanStep, if_neg h0] at h ⊢
    have hh : (fracUpd L (spikeUpd st n da) n da).fracture_candidate =
        st.fracture_candidate := h
    show (fracUpd L (spikeUpd st n da) n da).fracture_at_n = st.fracture_at_n
    rw [fracUpd] at hh ⊢
    by_cases hq : L ≤ (spikeUpd st n da).stable_run ∧ 1 ≤ da
    · rw [if_pos hq] at hh
      dsimp only at hh
      have h1 := hsp.2.2.1
      omega
    · rw [if_neg hq]
      exact hsp.2.2.2

/-- If a scan segment records no fracture candidate, it leaves the
first-fracture index unchanged. -/
theorem scanGo_at_n_of_candidate_eq (L : Nat) :
    ∀ (ds : List Int) (st : ScanState) (i : Nat),
      (scanGo L st i ds).fracture_candidate = st.fracture_candidate →
      (scanGo L st i ds).fracture_at_n = st.fracture_at_n := by
  intro ds
  induction ds with
  | nil => intro st i _; rfl
  | cons da rest ih =>
    intro st i h
    rw [scanGo] at h ⊢
    have h1 : (scanStep L st i da).fracture_candidate = st.fracture_candidate := by
      have := scanStep_candidate_mono L st i da
      have := scanGo_candidate_mono L rest (scanStep L st i da) (i + 1)
      omega
    rw [ih _ _ (by omega), scanStep_at_n_of_candidate_eq L st i da h1]

/-- A scan over differences never exceeding the current maximal spike leaves
the spike fields unchanged. -/
theorem scanGo_spike_preserved (L : Nat) :
    ∀ (ds : List Int) (st : ScanState) (i : Nat),
      (∀ d ∈ ds, d ≤ st.max_spike) →
      (scanGo L st i ds).max_spike = st.max_spike ∧
      (scanGo L st i ds).spike_at_n = st.spike_at_n := by
  intro ds
  induction ds with
  | nil => intro st i _; exact ⟨rfl, rfl⟩
  | cons da rest ih =>
    intro st i hb
    rw [scanGo]
    have hda : da ≤ st.max_spike := hb da (List.mem_cons_self _ _)
    have hstep : (scanStep L st i da).max_spike = st.max_spike ∧
        (scanStep L st i da).spike_at_n = st.spike_at_n := by
      rw [scanStep]
      split
      · exact ⟨rfl, rfl⟩
      · have h1 : spikeUpd st i da = st := by
          rw [spikeUpd, if_neg (by omega)]
        constructor
        · show (fracUpd L (spikeUpd st i da) i da).max_spike = st.max_spike
          rw [h1]
          exact (fracUpd_fields L st i da).1
        · show (fracUpd L (spikeUpd st i da) i da).spike_at_n = st.spike_at_n
          rw [h1]
          exact (fracUpd_fields L st i da).2.1
    have := ih (scanStep L st i da) (i + 1)
      (fun d hd => by rw [hstep.1]; exact hb d (List.mem_cons_of_mem _ hd))
    rw [this.1, this.2, hstep.1, hstep.2]
    exact ⟨rfl, rfl⟩

theorem sweepFromM_cons_none (sigf : Nat → Option σ) (ab : List (σ × Nat))
    (n : Nat) (rest : List Nat) (h : sigf n = none) :
    sweepFromM sigf ab (n :: rest) = none := by
  rw [sweepFromM, h]

theorem sweepFromM_length (sigf : Nat → Option σ) :
    ∀ (idxs : List Nat) (ab : List (σ × Nat)) (rows : List (Row σ)),
      sweepFromM sigf ab idxs = some rows → rows.length = idxs.length := by
  intro idxs
  induction idxs with
  | nil =>
    intro ab rows h
    simp only [sweepFromM] at h
    simp [← Option.some_inj.mp h]
  | cons n rest ih =>
    intro ab rows h
    rw [sweepFromM] at h
    cases hs : sigf n with
    | none => rw [hs] at h; exact absurd h (by simp)
    | some s =>
      simp only [hs] at h
      cases hl : lookupFirst ab s with
      | some f =>
        simp only [hl] at h
        cases hm : sweepFromM sigf ab rest with
        | none => rw [hm] at h; exact absurd h (by simp)
        | some rs =>
          simp only [hm] at h
          rw [← Option.some_inj.mp h]
          simp [ih ab rs hm]
      | none =>
        simp only [hl] at h
        cases hm : sweepFromM sigf (ab ++ [(s, n)]) rest with
        | none => rw [hm] at h; exact absurd h (by simp)
        | some rs =>
          simp only [hm] at h
          rw [← Option.some_inj.mp h]
          simp [ih _ rs hm]

/-- A nonzero `+1` difference arriving after a stable run of length at
least `L` records a fracture candidate and leaves `max_stable_run`
untouched. -/
theorem scanStep_qualify (L : Nat) (st : ScanState) (i : Nat)
    (hL : L ≤ st.stable_run) :
    (scanStep L st i 1).fracture_candidate = st.fracture_candidate + 1 ∧
    (scanStep L st i 1).fracture_at_n =
      (if st.fracture_at_n = 0 then i else st.fracture_at_n) ∧
    (scanStep L st i 1).max_stable_run = st.max_stable_run := by
  have hsp := spikeUpd_fields st i 1
  rw [scanStep, if_neg (by norm_num)]
  have hcond : L ≤ (spikeUpd st i 1).stable_run ∧ (1 : Int) ≤ 1 :=
    ⟨by rw [hsp.1]; exact hL, le_refl 1⟩
  refine ⟨?_, ?_, ?_⟩
  · show (fracUpd L (spikeUpd st i 1) i 1).fracture_candidate =
      st.fracture_candidate + 1
    rw [fracUpd, if_pos hcond]
    dsimp only
    rw [hsp.2.2.1]
  · show (fracUpd L (spikeUpd st i 1) i 1).fracture_at_n =
      if st.fracture_at_n = 0 then i else st.fracture_at_n
    rw [fracUpd, if_pos hcond]
    dsimp only
    rw [hsp.2.2.2]
  · show (fracUpd L (spikeUpd st i 1) i 1).max_stable_run = st.max_stable_run
    rw [(fracUpd_fields L (spikeUpd st i 1) i 1).2.2.2, hsp.2.1]

/-- For a sweep starting from the empty alphabet over indices `0 … m`, the
first alpha difference is `1` and no later difference exceeds it, so the
scan's spike fields are pinned to `1` at index `0`. -/
theorem fractureScan_sweep_spike (sigf : Nat → σ) (L m : Nat) :
    (fractureScan L (dAlpha (alphaSeriesOf
      (sweep sigf (List.range (m + 1)))))).max_spike = 1 ∧
    (fractureScan L (dAlpha (alphaSeriesOf
      (sweep sigf (List.range (m + 1)))))).spike_at_n = 0 := by
  have hrange : List.range (m + 1) = 0 :: List.range' 1 m := by
    rw [List.range_eq_range', List.range'_succ]
  have hsweep : sweep sigf (List.range (m + 1)) =
      ⟨0, sigf 0, 1, 0, 1⟩ :: sweepFrom sigf [(sigf 0, 0)] (List.range' 1 m) := by
    rw [hrange]
    rfl
  rw [hsweep]
  have hda : dAlpha (alphaSeriesOf (⟨0, sigf 0, 1, 0, 1⟩ ::
      sweepFrom sigf [(sigf 0, 0)] (List.range' 1 m))) =
      1 :: dAlphaGo 1 (alphaSeriesOf
        (sweepFrom sigf [(sigf 0, 0)] (List.range' 1 m))) := by
    rfl
  rw [hda]
  have hbounds := sweepFrom_dAlpha_bounds sigf (List.range' 1 m) [(sigf 0, 0)]
  norm_num at hbounds
  have hstep : (scanStep L scanInit 0 1).max_spike = 1 ∧
      (scanStep L scanInit 0 1).spike_at_n = 0 := by
    rw [scanStep, if_neg (by norm_num)]
    constructor
    · show (fracUpd L (spikeUpd scanInit 0 1) 0 1).max_spike = 1
      rw [(fracUpd_fields L (spikeUpd scanInit 0 1) 0 1).1, spikeUpd,
        if_pos (by decide)]
    · show (fracUpd L (spikeUpd scanInit 0 1) 0 1).spike_at_n = 0
      rw [(fracUpd_fields L (spikeUpd scanInit 0 1) 0 1).2.1, spikeUpd,
        if_pos (by decide)]
  rw [fractureScan, scanGo]
  have hp := scanGo_spike_preserved L
    (dAlphaGo 1 (alphaSeriesOf (sweepFrom sigf [(sigf 0, 0)] (List.range' 1 m))))
    (scanStep L scanInit 0 1) (0 + 1)
    (fun d hd => by rw [hstep.1]; exact (hbounds d hd).2)
  exact ⟨by rw [hp.1, hstep.1], by rw [hp.2, hstep.2]⟩

/-- The observation bit depends only on the `obs` tag and the modulus. -/
theorem obs_bit_congr (x0 x1 : Nat) (cfg cfg' : AIMConfig)
    (hobs : cfg.obs = cfg'.obs) (hM : cfg.M = cfg'.M) :
    obs_bit x0 x1 cfg = obs_bit x0 x1 cfg' := by
  rw [obs_bit, obs_bit, hobs, hM]

theorem sigFrom_congr (xs : List Nat) (cfg cfg' : AIMConfig)
    (hobs : cfg.obs = cfg'.obs) (hM : cfg.M = cfg'.M) (n : Nat) :
    ∀ (rem k : Nat), sigFrom xs cfg n k rem = sigFrom xs cfg' n k rem := by
  intro rem
  induction rem with
  | zero => intro k; rfl
  | succ rem ih =>
    intro k
    rw [sigFrom, sigFrom]
    cases xs[n + k]? with
    | none => rfl
    | some x0 =>
      cases xs[n + k + 1]? with
      | none => rfl
      | some x1 =>
        show (match obs_bit x0 x1 cfg, sigFrom xs cfg n (k + 1) rem with
              | some b, some rest => some (b :: rest)
              | _, _ => none) =
             (match obs_bit x0 x1 cfg', sigFrom xs cfg' n (k + 1) rem with
              | some b, some rest => some (b :: rest)
              | _, _ => none)
        rw [obs_bit_congr x0 x1 cfg cfg' hobs hM, ih (k + 1)]

/-- A signature depends only on the `obs` tag, the modulus and the window
width. -/
theorem signature_at_congr (n : Nat) (xs : List Nat) (cfg cfg' : AIMConfig)
    (hobs : cfg.obs = cfg'.obs) (hM : cfg.M = cfg'.M) (hH : cfg.H = cfg'.H) :
    signature_at n xs cfg = signature_at n xs cfg' := by
  rw [signature_at, signature_at, hH]
  exact sigFrom_congr xs cfg cfg' hobs hM n cfg'.H 0

/-- One unfolding step of the state-stream construction. -/
theorem build_from_cons (cfg : AIMConfig) (x x1 t steps : Nat) (rest : List Nat)
    (hstep : (if t < cfg.shift_n then stream_step x t cfg.pre_mode cfg.a1 cfg.c1 cfg.M
              else stream_step x t cfg.post_mode cfg.a2 cfg.c2 cfg.M) = some x1)
    (hrest : build_from cfg x1 (t + 1) steps = some rest) :
    build_from cfg x t (steps + 1) = some (x :: rest) := by
  rw [build_from, hstep]
  show (match build_from cfg x1 (t + 1) steps with
        | none => none
        | some rest => some (x :: rest)) = some (x :: rest)
  rw [hrest]

/-! Lemmas about the trial-division loop of `d_min`. -/

/-- `find?` over an ascending arithmetic range returns the first element
satisfying the predicate. -/
theorem find?_range'_first (p : Nat → Bool) :
    ∀ (len s d : Nat), s ≤ d → d < s + len → p d = true →
      (∀ e, s ≤ e → e < d → p e = false) →
      (List.range' s len).find? p = some d := by
  intro len
  induction len with
  | zero =>
    intro s d h1 h2 _ _
    exact absurd h2 (by omega)
  | succ len ih =>
    intro s d h1 h2 hp hmin
    rw [List.range'_succ]
    by_cases hs : d = s
    · subst hs
      exact List.find?_cons_of_pos _ hp
    · have hps : ¬ p s := by
        rw [hmin s (le_refl s) (by omega)]
        exact Bool.false_ne_true
      rw [List.find?_cons_of_neg _ hps]
      exact ih (s + 1) d (by omega) (by omega) hp
        (fun e he1 he2 => hmin e (by omega) he2)

/-- The least prime factor of a composite `n ≥ 4` is at most `⌊√n⌋`. -/
theorem minFac_le_sqrt {n : Nat} (h4 : 4 ≤ n) (hnp : ¬ Nat.Prime n) :
    n.minFac ≤ Nat.sqrt n := by
  have hp := Nat.minFac_prime (show n ≠ 1 by omega)
  obtain ⟨q, hq⟩ := Nat.minFac_dvd n
  have hq2 : 2 ≤ q := by
    rcases Nat.lt_or_ge q 2 with hlt | hge
    · exfalso
      rcases (show q = 0 ∨ q = 1 by omega) with rfl | rfl
      · rw [Nat.mul_zero] at hq
        omega
      · rw [Nat.mul_one] at hq
        exact hnp (hq ▸ hp)
    · exact hge
  have hle : n.minFac ≤ q :=
    Nat.minFac_le_of_dvd hq2 ⟨n.minFac, hq.trans (Nat.mul_comm _ _)⟩
  exact Nat.le_sqrt.mpr (by calc
    n.minFac * n.minFac ≤ n.minFac * q := Nat.mul_le_mul_left _ hle
    _ = n := hq.symm)

/-- For a prime `n ≥ 4`, trial division finds no divisor and `d_min` is 0. -/
theorem d_min_prime_large {n : Nat} (h4 : 4 ≤ n) (hp : Nat.Prime n) :
    d_min n = 0 := by
  rw [d_min, if_neg (by omega)]
  have hs2 : 2 ≤ Nat.sqrt n := Nat.le_sqrt.mpr (by omega)
  have hfind : (List.range' 2 (Nat.sqrt n - 1)).find? (fun d => n % d = 0) = none := by
    rw [List.find?_eq_none]
    intro d hd
    rw [List.mem_range'_1] at hd
    simp only [decide_eq_true_eq]
    intro hmod
    rcases hp.eq_one_or_self_of_dvd d (Nat.dvd_iff_mod_eq_zero.mpr hmod) with h1 | hn
    · omega
    · have := Nat.sqrt_lt_self (show 1 < n by omega)
      omega
  rw [hfind]

/-- For a composite `n ≥ 4`, trial division returns the least prime
factor. -/
theorem d_min_composite {n : Nat} (h4 : 4 ≤ n) (hnp : ¬ Nat.Prime n) :
    d_min n = n.minFac := by
  rw [d_min, if_neg (by omega)]
  have hs2 : 2 ≤ Nat.sqrt n := Nat.le_sqrt.mpr (by omega)
  have hple := minFac_le_sqrt h4 hnp
  have h2p : 2 ≤ n.minFac := (Nat.minFac_prime (show n ≠ 1 by omega)).two_le
  have hfind : (List.range' 2 (Nat.sqrt n - 1)).find? (fun d => n % d = 0) =
      some n.minFac := by
    apply find?_range'_first
    · exact h2p
    · omega
    · simp only [decide_eq_true_eq]
      exact Nat.dvd_iff_mod_eq_zero.mp (Nat.minFac_dvd n)
    · intro e he1 he2
      rw [decide_eq_false_iff_not]
      intro hmod
      have := Nat.minFac_le_of_dvd he1 (Nat.dvd_iff_mod_eq_zero.mpr hmod)
      omega
  rw [hfind]

/-! Helpers connecting the full runs with the generic sweep. -/

theorem alphaSeries_chain (sigf : Nat → σ) (idxs : List Nat) :
    List.Chain' (fun p q : Nat × Nat × Nat => p.2.1 ≤ q.2.1 ∧ q.2.1 ≤ p.2.1 + 1)
      (alphaSeriesOf (sweep sigf idxs)) := by
  have h := (sweepFrom_alpha_chain sigf idxs []).1
  rw [List.chain'_map] at h
  rw [alphaSeriesOf, List.chain'_map]
  exact h

theorem sbm_ai_run_eq_sweep (cfg : AIMConfig) (rows : List (Row (List Nat)))
    (h : sbm_ai_run cfg = some rows) :
    ∃ xs, build_stream cfg = some xs ∧
      rows = sweep (fun n => (signature_at n xs cfg).getD []) (List.range cfg.N) := by
  rw [sbm_ai_run] at h
  cases hb : build_stream cfg with
  | none => rw [hb] at h; exact absurd h (by simp)
  | some xs =>
    rw [hb] at h
    exact ⟨xs, rfl, sweepFromM_eq_sweepFrom _ _ _ _ h⟩

theorem sbm_run_eq_sweep (s b : Nat → Nat) (cfg : SBMConfig) (rows : List (Row Sig))
    (h : sbm_run s b cfg = some rows) :
    ∃ f, get_signature_fn cfg.op s b = some f ∧
      rows = sweep (f cfg) (List.range' 2 (cfg.N - 1)) := by
  rw [sbm_run] at h
  cases hf : get_signature_fn cfg.op s b with
  | none => rw [hf] at h; exact absurd h (by simp)
  | some f =>
    rw [hf] at h
    exact ⟨f, rfl, (Option.some_inj.mp h).symm⟩

end SBM

namespace SBM

/-! The claim theorems. -/

/-- C1: Determinism — for every fixed configuration, two independent
evaluations of the core pipeline produce identical result streams,
identical checkpoint alpha values and identical metrics records; the
embedded pipeline is a pure function of the configuration. -/
theorem C1_determinism (cfg c1 c2 : AIMConfig) (h1 : c1 = cfg) (h2 : c2 = cfg) :
    sbm_ai_run c1 = sbm_ai_run c2 ∧
    ai_checkpoints c1 = ai_checkpoints c2 ∧
    ai_metrics c1 = ai_metrics c2 := by
  subst h1
  subst h2
  exact ⟨rfl, rfl, rfl⟩

/-- Witness for C1 at a concrete configuration. -/
theorem C1_determinism_witness :
    sbm_ai_run ⟨5, 1, 8, 0, 0, 0, 0, 0, 6, 1, "delta_parity", "ramp", "lcg"⟩ =
      sbm_ai_run ⟨5, 1, 8, 0, 0, 0, 0, 0, 6, 1, "delta_parity", "ramp", "lcg"⟩ ∧
    ai_checkpoints ⟨5, 1, 8, 0, 0, 0, 0, 0, 6, 1, "delta_parity", "ramp", "lcg"⟩ =
      ai_checkpoints ⟨5, 1, 8, 0, 0, 0, 0, 0, 6, 1, "delta_parity", "ramp", "lcg"⟩ ∧
    ai_metrics ⟨5, 1, 8, 0, 0, 0, 0, 0, 6, 1, "delta_parity", "ramp", "lcg"⟩ =
      ai_metrics ⟨5, 1, 8, 0, 0, 0, 0, 0, 6, 1, "delta_parity", "ramp", "lcg"⟩ :=
  C1_determinism ⟨5, 1, 8, 0, 0, 0, 0, 0, 6, 1, "delta_parity", "ramp", "lcg"⟩ _ _ rfl rfl

/-- C2: Monotonicity of the growth curve — in every run of either variant,
consecutive alpha-series values satisfy `alpha(n) ≤ alpha(n+1)` and
`alpha(n+1) - alpha(n) ∈ {0, 1}`. -/
theorem C2_monotonicity :
    (∀ (cfg : AIMConfig) (rows : List (Row (List Nat))),
      sbm_ai_run cfg = some rows →
        List.Chain' (fun p q : Nat × Nat × Nat => p.2.1 ≤ q.2.1 ∧ q.2.1 ≤ p.2.1 + 1)
          (alphaSeriesOf rows)) ∧
    (∀ (s b : Nat → Nat) (cfg : SBMConfig) (rows : List (Row Sig)),
      sbm_run s b cfg = some rows →
        List.Chain' (fun p q : Nat × Nat × Nat => p.2.1 ≤ q.2.1 ∧ q.2.1 ≤ p.2.1 + 1)
          (alphaSeriesOf rows)) := by
  constructor
  · intro cfg rows h
    obtain ⟨xs, _, hrows⟩ := sbm_ai_run_eq_sweep cfg rows h
    rw [hrows]
    exact alphaSeries_chain _ _
  · intro s b cfg rows h
    obtain ⟨f, _, hrows⟩ := sbm_run_eq_sweep s b cfg rows h
    rw [hrows]
    exact alphaSeries_chain _ _

/-- Witness for C2 at a concrete run. -/
theorem C2_monotonicity_witness :
    List.Chain' (fun p q : Nat × Nat × Nat => p.2.1 ≤ q.2.1 ∧ q.2.1 ≤ p.2.1 + 1)
      (alphaSeriesOf [⟨0, [1], 1, 0, 1⟩, ⟨1, [0], 1, 1, 2⟩, ⟨2, [1], 0, 0, 2⟩,
        ⟨3, [0], 0, 1, 2⟩, ⟨4, [1], 0, 0, 2⟩]) :=
  C2_monotonicity.1 ⟨5, 1, 8, 0, 0, 0, 0, 0, 6, 1, "delta_parity", "ramp", "lcg"⟩ _
    (by decide)

/-- C3: Alphabet soundness — in the sweep over an ascending index list (the
loop both run variants execute), every emitted record has
`first_seen ≤ n`, any two records with the same signature report the same
`first_seen`, and that value is the earliest processed index whose
signature matches (the head of the ascending filtered index list). -/
theorem C3_alphabet_soundness (σ : Type) [DecidableEq σ] (sigf : Nat → σ)
    (idxs : List Nat) (hsort : idxs.Pairwise (· ≤ ·)) (r r' : Row σ)
    (hr : r ∈ sweep sigf idxs) (hr' : r' ∈ sweep sigf idxs)
    (hsig : r'.sig = r.sig) :
    r.first_seen ≤ r.n ∧ r'.first_seen = r.first_seen ∧
    (idxs.filter (fun i => decide (sigf i = r.sig))).head? = some r.first_seen := by
  obtain ⟨hs1, hm1, _, hn1⟩ := sweepFrom_rows sigf idxs [] r hr
  obtain ⟨hs2, hm2, _, hn2⟩ := sweepFrom_rows sigf idxs [] r' hr'
  have hf1 : firstIdxWith sigf r.sig idxs = some r.first_seen := hn1 rfl
  have hf2 : firstIdxWith sigf r'.sig idxs = some r'.first_seen := hn2 rfl
  rw [hsig] at hf2
  have heq : r'.first_seen = r.first_seen := by
    rw [hf1] at hf2
    exact (Option.some_inj.mp hf2).symm
  refine ⟨?_, heq, ?_⟩
  · exact firstIdxWith_le sigf idxs r.sig r.first_seen r.n hsort hf1 hm1 hs1.symm
  · rw [← firstIdxWith_eq_head_filter]
    exact hf1

theorem gapsOf_length (e : List Nat) :
    (gapsOf e).length = if 2 ≤ e.length then e.length - 1 else 0 := by
  rw [gapsOf]
  split
  · rw [List.length_zipWith, List.length_tail]
    omega
  · rfl

/-- C9: Metric guards — `C_N = 0` whenever `N ≤ 1`; `var_gap = 0` whenever
fewer than two emergence gaps exist (fewer than three emergence indices);
`mean_gap = 0` whenever fewer than two emergences exist.  Both metrics
records (state-sequence and index-operator variants) satisfy the guards for
every alpha series. -/
theorem C9_metric_guards (acfg : AIMConfig) (scfg : SBMConfig)
    (s : List (Nat × Nat × Nat)) :
    (acfg.N ≤ 1 → (compute_fracture_metrics acfg s).C_N = 0) ∧
    ((emergence_indices s).length < 3 →
      (compute_fracture_metrics acfg s).var_gap = 0) ∧
    ((emergence_indices s).length < 2 →
      (compute_fracture_metrics acfg s).mean_gap = 0) ∧
    (scfg.N ≤ 1 → (compute_metrics scfg s).C_N = 0) ∧
    ((emergence_indices s).length < 3 → (compute_metrics scfg s).var_gap = 0) ∧
    ((emergence_indices s).length < 2 → (compute_metrics scfg s).mean_gap = 0) := by
  have hCN : ∀ N : Nat, N ≤ 1 → C_N N s = 0 := by
    intro N h
    rw [C_N, if_neg (by omega)]
  have hvar : (emergence_indices s).length < 3 →
      var_gap (gapsOf (emergence_indices s)) = 0 := by
    intro he
    have hl := gapsOf_length (emergence_indices s)
    rw [var_gap]
    split
    · rfl
    · split
      · rfl
      · exfalso
        split at hl <;> omega
  have hmean : (emergence_indices s).length < 2 →
      mean_gap (gapsOf (emergence_indices s)) = 0 := by
    intro he
    rw [gapsOf, if_neg (by omega), mean_gap]
    rfl
  exact ⟨fun h => hCN acfg.N h, fun h => hvar h, fun h => hmean h,
    fun h => hCN scfg.N h, fun h => hvar h, fun h => hmean h⟩

/-- Witness for C9 at concrete configurations and an empty alpha series. -/
theorem C9_metric_guards_witness :
    (compute_fracture_metrics
      ⟨1, 1, 2, 0, 1, 0, 1, 0, 0, 1, "x_lsb", "plateau", "plateau"⟩ []).C_N = 0 ∧
    (compute_metrics ⟨"digitsum_mod9", 2, 1, (3, 11, 31, 101)⟩ []).var_gap = 0 :=
  ⟨(C9_metric_guards ⟨1, 1, 2, 0, 1, 0, 1, 0, 0, 1, "x_lsb", "plateau", "plateau"⟩
      ⟨"digitsum_mod9", 2, 1, (3, 11, 31, 101)⟩ []).1 (by decide),
   (C9_metric_guards ⟨1, 1, 2, 0, 1, 0, 1, 0, 0, 1, "x_lsb", "plateau", "plateau"⟩
      ⟨"digitsum_mod9", 2, 1, (3, 11, 31, 101)⟩ []).2.2.2.2.1 (by decide)⟩

/-- C5: Fracture detection — for every alpha series whose first differences
consist of a prefix on which the scan records nothing (no candidate, no open
stable run, and no stable run longer than `k`), followed by `k ≥ L`
consecutive zero differences and then a `+1` difference, the scan records
exactly one fracture candidate, `fracture_first_at_n` is the index of the
nonzero difference, and `max_stable_run` equals the zero-run length. -/
theorem C5_fracture_detection (cfg : AIMConfig) (s : List (Nat × Nat × Nat))
    (ds0 : List Int) (k : Nat)
    (hL : 1 ≤ cfg.long_stable_L)
    (hpre1 : (fractureScan cfg.long_stable_L ds0).fracture_candidate = 0)
    (hpre2 : (fractureScan cfg.long_stable_L ds0).stable_run = 0)
    (hpre3 : (fractureScan cfg.long_stable_L ds0).max_stable_run ≤ k)
    (hk : cfg.long_stable_L ≤ k)
    (hs : dAlpha s = ds0 ++ (List.replicate k 0 ++ [1])) :
    (compute_fracture_metrics cfg s).fracture_candidate_count = 1 ∧
    (compute_fracture_metrics cfg s).fracture_first_at_n = ds0.length + k ∧
    (compute_fracture_metrics cfg s).max_stable_run = k ∧
    (∀ (L : Nat) (st : ScanState) (i : Nat) (da : Int), da ≠ 0 →
      (scanStep L st i da).stable_run = 0) := by
  have hat0 : (fractureScan cfg.long_stable_L ds0).fracture_at_n = 0 :=
    scanGo_at_n_of_candidate_eq cfg.long_stable_L ds0 scanInit 0 hpre1
  have hfold : scanGo cfg.long_stable_L scanInit 0 ds0 =
      fractureScan cfg.long_stable_L ds0 := rfl
  have hst1 : scanGo cfg.long_stable_L (fractureScan cfg.long_stable_L ds0)
      ds0.length (List.replicate k 0) =
      { fractureScan cfg.long_stable_L ds0 with
        stable_run := k, max_stable_run := k } := by
    rw [scanGo_zeros, hpre2, if_neg (show ¬ k = 0 by omega), Nat.zero_add,
      max_eq_right hpre3]
  have hq := scanStep_qualify cfg.long_stable_L
    { fractureScan cfg.long_stable_L ds0 with stable_run := k, max_stable_run := k }
    (ds0.length + k) hk
  have hfinal : fractureScan cfg.long_stable_L (dAlpha s) =
      scanStep cfg.long_stable_L
        { fractureScan cfg.long_stable_L ds0 with
          stable_run := k, max_stable_run := k }
        (ds0.length + k) 1 := by
    rw [fractureScan, hs, scanGo_append, scanGo_append, hfold, Nat.zero_add,
      List.length_replicate, hst1]
    rfl
  refine ⟨?_, ?_, ?_, ?_⟩
  · show (fractureScan cfg.long_stable_L (dAlpha s)).fracture_candidate = 1
    rw [hfinal, hq.1]
    dsimp only
    rw [hpre1]
  · show (fractureScan cfg.long_stable_L (dAlpha s)).fracture_at_n = ds0.length + k
    rw [hfinal, hq.2.1]
    dsimp only
    rw [hat0, if_pos rfl]
  · show (fractureScan cfg.long_stable_L (dAlpha s)).max_stable_run = k
    rw [hfinal, hq.2.2]
  · intro L st i da hda
    rw [scanStep, if_neg hda]

/-- Witness for C5 at a concrete series: diffs `[1] ++ [0] ++ [1]` with
`L = 1`. -/
theorem C5_fracture_detection_witness :
    dAlpha [(0, 1, 1), (1, 1, 0), (2, 2, 1)] =
      [1] ++ (List.replicate 1 0 ++ [1]) ∧
    (compute_fracture_metrics ⟨3, 1, 2, 0, 1, 0, 1, 0, 0, 1, "x_lsb", "plateau", "plateau"⟩
      [(0, 1, 1), (1, 1, 0), (2, 2, 1)]).fracture_candidate_count = 1 ∧
    (compute_fracture_metrics ⟨3, 1, 2, 0, 1, 0, 1, 0, 0, 1, "x_lsb", "plateau", "plateau"⟩
      [(0, 1, 1), (1, 1, 0), (2, 2, 1)]).fracture_first_at_n = 2 ∧
    (compute_fracture_metrics ⟨3, 1, 2, 0, 1, 0, 1, 0, 0, 1, "x_lsb", "plateau", "plateau"⟩
      [(0, 1, 1), (1, 1, 0), (2, 2, 1)]).max_stable_run = 1 :=
  ⟨by decide,
    (C5_fracture_detection ⟨3, 1, 2, 0, 1, 0, 1, 0, 0, 1, "x_lsb", "plateau", "plateau"⟩
      [(0, 1, 1), (1, 1, 0), (2, 2, 1)] [1] 1 (by decide) (by decide) (by decide)
      (by decide) (by decide) (by decide)).1,
    (C5_fracture_detection ⟨3, 1, 2, 0, 1, 0, 1, 0, 0, 1, "x_lsb", "plateau", "plateau"⟩
      [(0, 1, 1), (1, 1, 0), (2, 2, 1)] [1] 1 (by decide) (by decide) (by decide)
      (by decide) (by decide) (by decide)).2.1,
    (C5_fracture_detection ⟨3, 1, 2, 0, 1, 0, 1, 0, 0, 1, "x_lsb", "plateau", "plateau"⟩
      [(0, 1, 1), (1, 1, 0), (2, 2, 1)] [1] 1 (by decide) (by decide) (by decide)
      (by decide) (by decide) (by decide)).2.2.1⟩

/-- C10: In every successful state-sequence-variant run with `N ≥ 1`, the
metrics record has `max_spike = 1` and `spike_at_n = 0`: the first processed
index always introduces a new signature (first difference `1`) and alpha
never grows by more than one per index afterwards, so the spike fields
carry no information beyond the existence of a first index. -/
theorem C10_spike_fields (cfg : AIMConfig) (rows : List (Row (List Nat)))
    (hrun : sbm_ai_run cfg = some rows) (hN : 1 ≤ cfg.N) :
    (compute_fracture_metrics cfg (alphaSeriesOf rows)).max_spike = 1 ∧
    (compute_fracture_metrics cfg (alphaSeriesOf rows)).spike_at_n = 0 := by
  obtain ⟨xs, _, hrows⟩ := sbm_ai_run_eq_sweep cfg rows hrun
  obtain ⟨m, hm⟩ : ∃ m, cfg.N = m + 1 := ⟨cfg.N - 1, by omega⟩
  rw [hm] at hrows
  have h := fractureScan_sweep_spike
    (fun n => (signature_at n xs cfg).getD []) cfg.long_stable_L m
  constructor
  · show (fractureScan cfg.long_stable_L (dAlpha (alphaSeriesOf rows))).max_spike = 1
    rw [hrows]
    exact h.1
  · show (fractureScan cfg.long_stable_L (dAlpha (alphaSeriesOf rows))).spike_at_n = 0
    rw [hrows]
    exact h.2

/-- Witness for C10 at a concrete run. -/
theorem C10_spike_fields_witness :
    sbm_ai_run ⟨1, 1, 2, 0, 1, 0, 1, 0, 0, 1, "x_lsb", "plateau", "plateau"⟩ =
      some [⟨0, [0], 1, 0, 1⟩] ∧
    (compute_fracture_metrics ⟨1, 1, 2, 0, 1, 0, 1, 0, 0, 1, "x_lsb", "plateau", "plateau"⟩
      (alphaSeriesOf [⟨0, [0], 1, 0, 1⟩])).max_spike = 1 ∧
    (compute_fracture_metrics ⟨1, 1, 2, 0, 1, 0, 1, 0, 0, 1, "x_lsb", "plateau", "plateau"⟩
      (alphaSeriesOf [⟨0, [0], 1, 0, 1⟩])).spike_at_n = 0 :=
  ⟨by decide,
    (C10_spike_fields ⟨1, 1, 2, 0, 1, 0, 1, 0, 0, 1, "x_lsb", "plateau", "plateau"⟩
      [⟨0, [0], 1, 0, 1⟩] (by decide) (by decide)).1,
    (C10_spike_fields ⟨1, 1, 2, 0, 1, 0, 1, 0, 0, 1, "x_lsb", "plateau", "plateau"⟩
      [⟨0, [0], 1, 0, 1⟩] (by decide) (by decide)).2⟩

/-- C8: Every index-operator run processes exactly the indices `2 … N`
inclusive, in ascending order; and for `op = digitsum_mod9`, `N = 4`,
`H = 2` the signatures are `(2,2)`, `(3,3)`, `(4,4)`, all new, giving
`alpha_N = 3` and `emergence_count = 3`. -/
theorem C8_scenario_B :
    (∀ (s b : Nat → Nat) (cfg : SBMConfig) (rows : List (Row Sig)),
      sbm_run s b cfg = some rows →
        rows.map Row.n = List.range' 2 (cfg.N - 1) ∧
        (rows.map Row.n).Pairwise (· < ·)) ∧
    sbm_run (fun _ => 0) (fun _ => 0) ⟨"digitsum_mod9", 2, 4, (3, 11, 31, 101)⟩ =
      some [⟨2, Sig.bits [2, 2], 1, 2, 1⟩, ⟨3, Sig.bits [3, 3], 1, 3, 2⟩,
            ⟨4, Sig.bits [4, 4], 1, 4, 3⟩] ∧
    (compute_metrics ⟨"digitsum_mod9", 2, 4, (3, 11, 31, 101)⟩
      (alphaSeriesOf [⟨2, Sig.bits [2, 2], 1, 2, 1⟩, ⟨3, Sig.bits [3, 3], 1, 3, 2⟩,
        ⟨4, Sig.bits [4, 4], 1, 4, 3⟩])).alpha_N = 3 ∧
    (compute_metrics ⟨"digitsum_mod9", 2, 4, (3, 11, 31, 101)⟩
      (alphaSeriesOf [⟨2, Sig.bits [2, 2], 1, 2, 1⟩, ⟨3, Sig.bits [3, 3], 1, 3, 2⟩,
        ⟨4, Sig.bits [4, 4], 1, 4, 3⟩])).emergence_count = 3 := by
  refine ⟨?_, by decide, ?_, ?_⟩
  · intro s b cfg rows h
    obtain ⟨f, _, hrows⟩ := sbm_run_eq_sweep s b cfg rows h
    rw [hrows, sweep, sweepFrom_map_n]
    exact ⟨rfl, List.pairwise_lt_range' 2 (cfg.N - 1)⟩
  · show alpha_last (alphaSeriesOf [⟨2, Sig.bits [2, 2], 1, 2, 1⟩,
      ⟨3, Sig.bits [3, 3], 1, 3, 2⟩, ⟨4, Sig.bits [4, 4], 1, 4, 3⟩]) = 3
    decide
  · show (emergence_indices (alphaSeriesOf [⟨2, Sig.bits [2, 2], 1, 2, 1⟩,
      ⟨3, Sig.bits [3, 3], 1, 3, 2⟩, ⟨4, Sig.bits [4, 4], 1, 4, 3⟩])).length = 3
    decide

/-- Witness for C8: the index domain of the concrete Scenario B run. -/
theorem C8_scenario_B_witness :
    ([⟨2, Sig.bits [2, 2], 1, 2, 1⟩, ⟨3, Sig.bits [3, 3], 1, 3, 2⟩,
      ⟨4, Sig.bits [4, 4], 1, 4, 3⟩] : List (Row Sig)).map Row.n =
      List.range' 2 (4 - 1) ∧
    (([⟨2, Sig.bits [2, 2], 1, 2, 1⟩, ⟨3, Sig.bits [3, 3], 1, 3, 2⟩,
      ⟨4, Sig.bits [4, 4], 1, 4, 3⟩] : List (Row Sig)).map Row.n).Pairwise (· < ·) :=
  C8_scenario_B.1 (fun _ => 0) (fun _ => 0) ⟨"digitsum_mod9", 2, 4, (3, 11, 31, 101)⟩
    _ (by decide)

/-- Counterexample to C6 as stated: a configuration with non-positive `N`
(one of the claim's configuration-error classes) whose run does not fail —
it completes and produces a (complete, empty) record set. -/
theorem C6_counterexample :
    (⟨0, 1, 2, 0, 1, 0, 1, 0, 0, 1, "xor_parity", "lcg", "lcg"⟩ : AIMConfig).N = 0 ∧
    sbm_ai_run ⟨0, 1, 2, 0, 1, 0, 1, 0, 0, 1, "xor_parity", "lcg", "lcg"⟩ =
      some [] := by
  decide

/-- C6 (amended): configuration errors that the code actually detects abort
the run with no result records — `M = 0`, an unknown transition-mode tag
that is exercised at the first step, an unknown observation tag (with
`N ≥ 1`, `H ≥ 1`), or an unknown operator name; and a successful run always
produces the complete record set (one record per processed index).
Non-positive `N`/`H` and out-of-range `shift_n` are not validated. -/
theorem C6_config_errors_amended (cfg : AIMConfig) :
    (cfg.M = 0 → sbm_ai_run cfg = none) ∧
    (cfg.pre_mode ≠ "lcg" → cfg.pre_mode ≠ "plateau" → cfg.pre_mode ≠ "ramp" →
      1 ≤ cfg.shift_n → 1 ≤ cfg.N + cfg.H → sbm_ai_run cfg = none) ∧
    (cfg.post_mode ≠ "lcg" → cfg.post_mode ≠ "plateau" → cfg.post_mode ≠ "ramp" →
      cfg.shift_n = 0 → 1 ≤ cfg.N + cfg.H → sbm_ai_run cfg = none) ∧
    (cfg.obs ≠ "delta_parity" → cfg.obs ≠ "xor_parity" → cfg.obs ≠ "x_lsb" →
      cfg.obs ≠ "popcnt_parity" → 1 ≤ cfg.N → 1 ≤ cfg.H →
      sbm_ai_run cfg = none) ∧
    (∀ rows, sbm_ai_run cfg = some rows → rows.length = cfg.N) ∧
    (∀ (s b : Nat → Nat) (scfg : SBMConfig),
      scfg.op ≠ "ssnt_closure" → scfg.op ≠ "collatz_parity" →
      scfg.op ≠ "xorshift_parity" → scfg.op ≠ "digitsum_mod9" →
      scfg.op ≠ "sha1_parity" → sbm_run s b scfg = none) := by
  refine ⟨?_, ?_, ?_, ?_, ?_, ?_⟩
  · intro h
    rw [sbm_ai_run, build_stream, if_pos h]
  · intro h1 h2 h3 hsh hNH
    have hss : ∀ x t a c M', stream_step x t cfg.pre_mode a c M' = none := by
      intro x t a c M'
      rw [stream_step, if_neg h1, if_neg h2, if_neg h3]
    rw [sbm_ai_run]
    have hbuild : build_stream cfg = none := by
      rw [build_stream]
      split
      · rfl
      · obtain ⟨k, hk⟩ : ∃ k, cfg.N + cfg.H = k + 1 := ⟨cfg.N + cfg.H - 1, by omega⟩
        rw [hk, build_from, if_pos (show 0 < cfg.shift_n by omega), hss]
    rw [hbuild]
  · intro h1 h2 h3 hsh hNH
    have hss : ∀ x t a c M', stream_step x t cfg.post_mode a c M' = none := by
      intro x t a c M'
      rw [stream_step, if_neg h1, if_neg h2, if_neg h3]
    rw [sbm_ai_run]
    have hbuild : build_stream cfg = none := by
      rw [build_stream]
      split
      · rfl
      · obtain ⟨k, hk⟩ : ∃ k, cfg.N + cfg.H = k + 1 := ⟨cfg.N + cfg.H - 1, by omega⟩
        rw [hk, build_from, if_neg (show ¬ 0 < cfg.shift_n by omega), hss]
    rw [hbuild]
  · intro h1 h2 h3 h4 hN hH
    have hobs : ∀ x0 x1, obs_bit x0 x1 cfg = none := by
      intro x0 x1
      rw [obs_bit, if_neg h1, if_neg h2, if_neg h3, if_neg h4]
    have hsig : ∀ xs, signature_at 0 xs cfg = none := by
      intro xs
      obtain ⟨hh, hHh⟩ : ∃ hh, cfg.H = hh + 1 := ⟨cfg.H - 1, by omega⟩
      rw [signature_at, hHh, sigFrom]
      cases hx0 : xs[0 + 0]? with
      | none => rfl
      | some x0 =>
        cases hx1 : xs[0 + 0 + 1]? with
        | none => rfl
        | some x1 =>
          show (match obs_bit x0 x1 cfg, sigFrom xs cfg 0 (0 + 1) hh with
                | some b, some rest => some (b :: rest)
                | _, _ => none) = none
          rw [hobs x0 x1]
    rw [sbm_ai_run]
    cases hb : build_stream cfg with
    | none => rfl
    | some xs =>
      obtain ⟨m, hm⟩ : ∃ m, cfg.N = m + 1 := ⟨cfg.N - 1, by omega⟩
      rw [hm, List.range_eq_range', List.range'_succ]
      show sweepFromM (fun n => signature_at n xs cfg) []
        (0 :: List.range' (0 + 1) m) = none
      exact sweepFromM_cons_none _ _ _ _ (hsig xs)
  · intro rows h
    rw [sbm_ai_run] at h
    cases hb : build_stream cfg with
    | none => rw [hb] at h; exact absurd h (by simp)
    | some xs =>
      rw [hb] at h
      rw [sweepFromM_length _ _ _ _ h, List.length_range]
  · intro s b scfg h1 h2 h3 h4 h5
    rw [sbm_run, get_signature_fn, if_neg h1, if_neg h2, if_neg h3, if_neg h4,
      if_neg h5]

/-- Witness for the amended C6: a run with an unknown observation tag (and
valid everything else) aborts with no records. -/
theorem C6_config_errors_amended_witness :
    sbm_ai_run ⟨1, 1, 2, 0, 1, 0, 1, 0, 0, 1, "bogus", "plateau", "plateau"⟩ =
      none :=
  (C6_config_errors_amended
      ⟨1, 1, 2, 0, 1, 0, 1, 0, 0, 1, "bogus", "plateau", "plateau"⟩).2.2.2.1
    (by decide) (by decide) (by decide) (by decide) (by decide) (by decide)

/-- Counterexample to C7 as stated: at `n = 1` the claim requires the
minimal-divisor function to return `0` (since `n ≤ 1`), but the code
returns `2`. -/
theorem C7_counterexample : (1 : Nat) ≤ 1 ∧ d_min 1 ≠ 0 ∧ d_min 1 = 2 := by
  decide

/-- C7 (amended): `d_min n = 0` iff `n` is prime (so `n ∈ {2,3}` are
divisor-less as claimed, but `n ≤ 1` yields `2`, not `0`); for composite
`n ≥ 4` it returns the smallest divisor `d` with `2 ≤ d ≤ ⌊√n⌋`. -/
theorem C7_d_min_amended (n : Nat) :
    (d_min n = 0 ↔ Nat.Prime n) ∧
    (n ≤ 1 → d_min n = 2) ∧
    (4 ≤ n → ¬ Nat.Prime n →
      d_min n ∣ n ∧ 2 ≤ d_min n ∧ d_min n ≤ Nat.sqrt n ∧
      ∀ d, 2 ≤ d → d ∣ n → d_min n ≤ d) := by
  have hsmall : n ≤ 1 → d_min n = 2 := by
    intro h
    rcases (show n = 0 ∨ n = 1 by omega) with rfl | rfl <;> decide
  refine ⟨⟨?_, ?_⟩, hsmall, ?_⟩
  · intro h0
    by_contra hnp
    rcases (show n ≤ 1 ∨ n = 2 ∨ n = 3 ∨ 4 ≤ n by omega) with h | rfl | rfl | h
    · rw [hsmall h] at h0
      omega
    · exact hnp Nat.prime_two
    · exact hnp Nat.prime_three
    · rw [d_min_composite h hnp] at h0
      have := (Nat.minFac_prime (show n ≠ 1 by omega)).two_le
      omega
  · intro hp
    rcases (show n = 2 ∨ n = 3 ∨ 4 ≤ n ∨ n ≤ 1 by omega) with rfl | rfl | h | h
    · decide
    · decide
    · exact d_min_prime_large h hp
    · exfalso
      rcases (show n = 0 ∨ n = 1 by omega) with rfl | rfl
      · exact Nat.not_prime_zero hp
      · exact Nat.not_prime_one hp
  · intro h4 hnp
    rw [d_min_composite h4 hnp]
    exact ⟨Nat.minFac_dvd n, (Nat.minFac_prime (show n ≠ 1 by omega)).two_le,
      minFac_le_sqrt h4 hnp, fun d hd2 hdvd => Nat.minFac_le_of_dvd hd2 hdvd⟩

/-- Witness for the amended C7 at `n = 1` and the composite `n = 9`. -/
theorem C7_d_min_amended_witness :
    d_min 1 = 2 ∧ d_min 9 ∣ 9 ∧ 2 ≤ d_min 9 ∧ d_min 9 ≤ Nat.sqrt 9 :=
  ⟨(C7_d_min_amended 1).2.1 (by decide),
   ((C7_d_min_amended 9).2.2 (by decide) (by decide)).1,
   ((C7_d_min_amended 9).2.2 (by decide) (by decide)).2.1,
   ((C7_d_min_amended 9).2.2 (by decide) (by decide)).2.2.1⟩

/-- Counterexample to C4 as stated: with `shift_n = 5 = N` (which satisfies
the claim's `shift_n ≥ N`) and post mode `lcg` with `a2 = c2 = 0`, the post
regime computes the final state `xs[6] = 0`, so the state sequence does not
begin `[0,1,3,6,2,7,5]`. -/
theorem C4_counterexample :
    5 ≤ (⟨5, 1, 8, 0, 0, 0, 0, 0, 5, 1, "delta_parity", "ramp", "lcg"⟩ : AIMConfig).shift_n ∧
    build_stream ⟨5, 1, 8, 0, 0, 0, 0, 0, 5, 1, "delta_parity", "ramp", "lcg"⟩ =
      some [0, 1, 3, 6, 2, 7, 0] ∧
    ([0, 1, 3, 6, 2, 7, 0] : List Nat) ≠ [0, 1, 3, 6, 2, 7, 5] := by
  decide

/-- C4 (amended): Scenario A with `shift_n ≥ N + H = 6`, so the post regime
is never invoked.  For every such configuration (any `a1, c1, a2, c2`,
`long_stable_L`, post mode): the state sequence is `[0,1,3,6,2,7,5]`, the
signatures at indices 0–4 are `(1),(0),(1),(0),(1)`, and the metrics record
has `alpha_N = 2`, `emergence_count = 2`, `E_N = 2/5`, `Hs_N = ln 3`,
`C_N = ln 3 / ln 5`. -/
theorem C4_scenario_A_amended (a1 c1 a2 c2 s L : Nat) (post : String)
    (hs : 6 ≤ s) :
    build_stream ⟨5, 1, 8, 0, a1, c1, a2, c2, s, L, "delta_parity", "ramp", post⟩ =
      some [0, 1, 3, 6, 2, 7, 5] ∧
    signature_at 0 [0, 1, 3, 6, 2, 7, 5]
      ⟨5, 1, 8, 0, a1, c1, a2, c2, s, L, "delta_parity", "ramp", post⟩ = some [1] ∧
    signature_at 1 [0, 1, 3, 6, 2, 7, 5]
      ⟨5, 1, 8, 0, a1, c1, a2, c2, s, L, "delta_parity", "ramp", post⟩ = some [0] ∧
    signature_at 2 [0, 1, 3, 6, 2, 7, 5]
      ⟨5, 1, 8, 0, a1, c1, a2, c2, s, L, "delta_parity", "ramp", post⟩ = some [1] ∧
    signature_at 3 [0, 1, 3, 6, 2, 7, 5]
      ⟨5, 1, 8, 0, a1, c1, a2, c2, s, L, "delta_parity", "ramp", post⟩ = some [0] ∧
    signature_at 4 [0, 1, 3, 6, 2, 7, 5]
      ⟨5, 1, 8, 0, a1, c1, a2, c2, s, L, "delta_parity", "ramp", post⟩ = some [1] ∧
    sbm_ai_run ⟨5, 1, 8, 0, a1, c1, a2, c2, s, L, "delta_parity", "ramp", post⟩ =
      some [⟨0, [1], 1, 0, 1⟩, ⟨1, [0], 1, 1, 2⟩, ⟨2, [1], 0, 0, 2⟩,
            ⟨3, [0], 0, 1, 2⟩, ⟨4, [1], 0, 0, 2⟩] ∧
    (compute_fracture_metrics ⟨5, 1, 8, 0, a1, c1, a2, c2, s, L, "delta_parity", "ramp", post⟩
      (alphaSeriesOf [⟨0, [1], 1, 0, 1⟩, ⟨1, [0], 1, 1, 2⟩, ⟨2, [1], 0, 0, 2⟩,
        ⟨3, [0], 0, 1, 2⟩, ⟨4, [1], 0, 0, 2⟩])).alpha_N = 2 ∧
    (compute_fracture_metrics ⟨5, 1, 8, 0, a1, c1, a2, c2, s, L, "delta_parity", "ramp", post⟩
      (alphaSeriesOf [⟨0, [1], 1, 0, 1⟩, ⟨1, [0], 1, 1, 2⟩, ⟨2, [1], 0, 0, 2⟩,
        ⟨3, [0], 0, 1, 2⟩, ⟨4, [1], 0, 0, 2⟩])).emergence_count = 2 ∧
    (compute_fracture_metrics ⟨5, 1, 8, 0, a1, c1, a2, c2, s, L, "delta_parity", "ramp", post⟩
      (alphaSeriesOf [⟨0, [1], 1, 0, 1⟩, ⟨1, [0], 1, 1, 2⟩, ⟨2, [1], 0, 0, 2⟩,
        ⟨3, [0], 0, 1, 2⟩, ⟨4, [1], 0, 0, 2⟩])).E_N = 2 / 5 ∧
    (compute_fracture_metrics ⟨5, 1, 8, 0, a1, c1, a2, c2, s, L, "delta_parity", "ramp", post⟩
      (alphaSeriesOf [⟨0, [1], 1, 0, 1⟩, ⟨1, [0], 1, 1, 2⟩, ⟨2, [1], 0, 0, 2⟩,
        ⟨3, [0], 0, 1, 2⟩, ⟨4, [1], 0, 0, 2⟩])).Hs_N = Real.log 3 ∧
    (compute_fracture_metrics ⟨5, 1, 8, 0, a1, c1, a2, c2, s, L, "delta_parity", "ramp", post⟩
      (alphaSeriesOf [⟨0, [1], 1, 0, 1⟩, ⟨1, [0], 1, 1, 2⟩, ⟨2, [1], 0, 0, 2⟩,
        ⟨3, [0], 0, 1, 2⟩, ⟨4, [1], 0, 0, 2⟩])).C_N = Real.log 3 / Real.log 5 := by
  have h6 : build_from
      ⟨5, 1, 8, 0, a1, c1, a2, c2, s, L, "delta_parity", "ramp", post⟩ 5 6 0 =
      some [5] := rfl
  have h5 := build_from_cons ⟨5, 1, 8, 0, a1, c1, a2, c2, s, L, "delta_parity", "ramp", post⟩ 7 5 5 0 [5]
    (by rw [if_pos (show 5 < s by omega)]; simp [stream_step]) h6
  have h4 := build_from_cons ⟨5, 1, 8, 0, a1, c1, a2, c2, s, L, "delta_parity", "ramp", post⟩ 2 7 4 1 [7, 5]
    (by rw [if_pos (show 4 < s by omega)]; simp [stream_step]) h5
  have h3 := build_from_cons ⟨5, 1, 8, 0, a1, c1, a2, c2, s, L, "delta_parity", "ramp", post⟩ 6 2 3 2 [2, 7, 5]
    (by rw [if_pos (show 3 < s by omega)]; simp [stream_step]) h4
  have h2 := build_from_cons ⟨5, 1, 8, 0, a1, c1, a2, c2, s, L, "delta_parity", "ramp", post⟩ 3 6 2 3 [6, 2, 7, 5]
    (by rw [if_pos (show 2 < s by omega)]; simp [stream_step]) h3
  have h1 := build_from_cons ⟨5, 1, 8, 0, a1, c1, a2, c2, s, L, "delta_parity", "ramp", post⟩ 1 3 1 4 [3, 6, 2, 7, 5]
    (by rw [if_pos (show 1 < s by omega)]; simp [stream_step]) h2
  have h0 := build_from_cons ⟨5, 1, 8, 0, a1, c1, a2, c2, s, L, "delta_parity", "ramp", post⟩ 0 1 0 5 [1, 3, 6, 2, 7, 5]
    (by rw [if_pos (show 0 < s by omega)]; simp [stream_step]) h1
  have hb : build_stream
      ⟨5, 1, 8, 0, a1, c1, a2, c2, s, L, "delta_parity", "ramp", post⟩ =
      some [0, 1, 3, 6, 2, 7, 5] := by
    rw [build_stream]
    rw [if_neg (show ¬ (8 : Nat) = 0 by decide)]
    exact h0
  have hcong : ∀ n, signature_at n [0, 1, 3, 6, 2, 7, 5]
      ⟨5, 1, 8, 0, a1, c1, a2, c2, s, L, "delta_parity", "ramp", post⟩ =
      signature_at n [0, 1, 3, 6, 2, 7, 5]
        ⟨5, 1, 8, 0, 0, 0, 0, 0, 6, 1, "delta_parity", "ramp", "lcg"⟩ :=
    fun n => signature_at_congr n [0, 1, 3, 6, 2, 7, 5] _ _ rfl rfl rfl
  have hrun : sbm_ai_run
      ⟨5, 1, 8, 0, a1, c1, a2, c2, s, L, "delta_parity", "ramp", post⟩ =
      some [⟨0, [1], 1, 0, 1⟩, ⟨1, [0], 1, 1, 2⟩, ⟨2, [1], 0, 0, 2⟩,
            ⟨3, [0], 0, 1, 2⟩, ⟨4, [1], 0, 0, 2⟩] := by
    rw [sbm_ai_run, hb]
    show sweepFromM (fun n => signature_at n [0, 1, 3, 6, 2, 7, 5]
        ⟨5, 1, 8, 0, a1, c1, a2, c2, s, L, "delta_parity", "ramp", post⟩) []
        (List.range 5) = some [⟨0, [1], 1, 0, 1⟩, ⟨1, [0], 1, 1, 2⟩,
          ⟨2, [1], 0, 0, 2⟩, ⟨3, [0], 0, 1, 2⟩, ⟨4, [1], 0, 0, 2⟩]
    rw [funext hcong]
    decide
  have hHs : (compute_fracture_metrics
      ⟨5, 1, 8, 0, a1, c1, a2, c2, s, L, "delta_parity", "ramp", post⟩
      (alphaSeriesOf [⟨0, [1], 1, 0, 1⟩, ⟨1, [0], 1, 1, 2⟩, ⟨2, [1], 0, 0, 2⟩,
        ⟨3, [0], 0, 1, 2⟩, ⟨4, [1], 0, 0, 2⟩])).Hs_N = Real.log 3 := by
    show Real.log ((alpha_last (alphaSeriesOf [⟨0, [1], 1, 0, 1⟩, ⟨1, [0], 1, 1, 2⟩,
      ⟨2, [1], 0, 0, 2⟩, ⟨3, [0], 0, 1, 2⟩, ⟨4, [1], 0, 0, 2⟩]) : ℝ) + 1) = Real.log 3
    rw [show alpha_last (alphaSeriesOf [⟨0, [1], 1, 0, 1⟩, ⟨1, [0], 1, 1, 2⟩,
      ⟨2, [1], 0, 0, 2⟩, ⟨3, [0], 0, 1, 2⟩, ⟨4, [1], 0, 0, 2⟩]) = 2 from by decide]
    norm_num
  refine ⟨hb, by rw [hcong 0]; decide, by rw [hcong 1]; decide, by rw [hcong 2]; decide,
    by rw [hcong 3]; decide, by rw [hcong 4]; decide, hrun, ?_, ?_, ?_, hHs, ?_⟩
  · show alpha_last (alphaSeriesOf [⟨0, [1], 1, 0, 1⟩, ⟨1, [0], 1, 1, 2⟩,
      ⟨2, [1], 0, 0, 2⟩, ⟨3, [0], 0, 1, 2⟩, ⟨4, [1], 0, 0, 2⟩]) = 2
    decide
  · show (emergence_indices (alphaSeriesOf [⟨0, [1], 1, 0, 1⟩, ⟨1, [0], 1, 1, 2⟩,
      ⟨2, [1], 0, 0, 2⟩, ⟨3, [0], 0, 1, 2⟩, ⟨4, [1], 0, 0, 2⟩])).length = 2
    decide
  · show E_N 5 (alphaSeriesOf [⟨0, [1], 1, 0, 1⟩, ⟨1, [0], 1, 1, 2⟩, ⟨2, [1], 0, 0, 2⟩,
      ⟨3, [0], 0, 1, 2⟩, ⟨4, [1], 0, 0, 2⟩]) = 2 / 5
    rw [E_N, if_pos (show 0 < 5 by norm_num),
      show (emergence_indices (alphaSeriesOf [⟨0, [1], 1, 0, 1⟩, ⟨1, [0], 1, 1, 2⟩,
        ⟨2, [1], 0, 0, 2⟩, ⟨3, [0], 0, 1, 2⟩, ⟨4, [1], 0, 0, 2⟩])).length = 2 from by decide]
    norm_num
  · show C_N 5 (alphaSeriesOf [⟨0, [1], 1, 0, 1⟩, ⟨1, [0], 1, 1, 2⟩, ⟨2, [1], 0, 0, 2⟩,
      ⟨3, [0], 0, 1, 2⟩, ⟨4, [1], 0, 0, 2⟩]) = Real.log 3 / Real.log 5
    rw [C_N, if_pos (show 1 < 5 by norm_num)]
    have hH2 : Hs_N (alphaSeriesOf [⟨0, [1], 1, 0, 1⟩, ⟨1, [0], 1, 1, 2⟩,
        ⟨2, [1], 0, 0, 2⟩, ⟨3, [0], 0, 1, 2⟩, ⟨4, [1], 0, 0, 2⟩]) = Real.log 3 := hHs
    rw [hH2]
    norm_num

/-- Witness for the amended C4 at `shift_n = 6`, post mode `lcg`. -/
theorem C4_scenario_A_amended_witness :
    build_stream ⟨5, 1, 8, 0, 0, 0, 0, 0, 6, 1, "delta_parity", "ramp", "lcg"⟩ =
      some [0, 1, 3, 6, 2, 7, 5] ∧
    (compute_fracture_metrics ⟨5, 1, 8, 0, 0, 0, 0, 0, 6, 1, "delta_parity", "ramp", "lcg"⟩
      (alphaSeriesOf [⟨0, [1], 1, 0, 1⟩, ⟨1, [0], 1, 1, 2⟩, ⟨2, [1], 0, 0, 2⟩,
        ⟨3, [0], 0, 1, 2⟩, ⟨4, [1], 0, 0, 2⟩])).Hs_N = Real.log 3 :=
  ⟨(C4_scenario_A_amended 0 0 0 0 6 1 "lcg" (by decide)).1,
   (C4_scenario_A_amended 0 0 0 0 6 1 "lcg" (by decide)).2.2.2.2.2.2.2.2.2.2.1⟩

/-- Witness for C3 at a concrete sweep. -/
theorem C3_alphabet_soundness_witness :
    (⟨2, 0, 0, 0, 2⟩ : Row Nat).first_seen ≤ (⟨2, 0, 0, 0, 2⟩ : Row Nat).n ∧
    (⟨0, 0, 1, 0, 1⟩ : Row Nat).first_seen = (⟨2, 0, 0, 0, 2⟩ : Row Nat).first_seen ∧
    ([0, 1, 2].filter
      (fun i => decide (i % 2 = (⟨2, 0, 0, 0, 2⟩ : Row Nat).sig))).head? =
      some (⟨2, 0, 0, 0, 2⟩ : Row Nat).first_seen :=
  C3_alphabet_soundness Nat (fun i => i % 2) [0, 1, 2] (by decide)
    ⟨2, 0, 0, 0, 2⟩ ⟨0, 0, 1, 0, 1⟩ (by decide) (by decide) (by decide)

end SBM
